import Mathlib

/-!
Verification of the ALOE log-triage pipeline core.

This file gives a shallow embedding, in Lean 4, of the pure data
transformations of the ALOE repository (clustering, cluster refinement,
fingerprinting, summarisation, fallback planning, plan normalisation,
plan execution bookkeeping and the draft-review loop), and proves the
documented invariants about them.  Every definition is translated from
the corresponding Python function; `Option` models Python `None` and
missing dictionary keys, `Except` models a raised exception, and the
Python truthiness of `None` and the empty string is made explicit in
the small helpers below.
-/

namespace Aloe

/-- Whitespace test used by Python `str.strip()` (restricted to the ASCII
whitespace characters, which are the only ones occurring in the data this
pipeline handles). -/
def isPySpace (c : Char) : Bool :=
  c = ' ' || c = '\t' || c = '\n' || c = '\r' || c = '\x0b' || c = '\x0c'

/-- Python `s.strip()`: drop leading and trailing whitespace. -/
def pyStrip (s : String) : String :=
  ⟨((s.data.dropWhile isPySpace).reverse.dropWhile isPySpace).reverse⟩

/-- Python `x or d` for a string-valued slot: `None` and `""` are falsy. -/
def pyOrStr (o : Option String) (d : String) : String :=
  match o with
  | none => d
  | some s => if s = "" then d else s

/-- Python `x or y` where both sides are optional strings, keeping the
second operand when the first is `None` or `""`. -/
def pyOrOpt (o o2 : Option String) : Option String :=
  match o with
  | none => o2
  | some s => if s = "" then o2 else some s

/-- Increment the counter stored under `k` in an association-list model of a
Python `dict`, inserting `1` when the key is absent (`d[k] = d.get(k, 0) + 1`).
Keys stay unique and keep their first-insertion position, as in CPython. -/
def bumpCount (m : List (String × Nat)) (k : String) : List (String × Nat) :=
  match m with
  | [] => [(k, 1)]
  | (k0, v) :: rest => if k0 = k then (k0, v + 1) :: rest else (k0, v) :: bumpCount rest k

/-- Python `d.get(k, 0)` on the association-list model of a counter `dict`. -/
def countGet (m : List (String × Nat)) (k : String) : Nat :=
  match m.find? (fun p => p.1 = k) with
  | some p => p.2
  | none => 0

/-! ## Summarizer (`tools/summary.py`) -/

/-- The `triage` sub-object of a triaged item, as read by `build_summary`
(`agents/llm_triage.py` also writes `service` and `reason` keys, which the
summariser never reads).  `confidence` is a JSON number, modelled as `ℚ`. -/
structure Triage where
  label : Option String
  service : Option String
  priority : Option String
  severity : Option String
  confidence : Option ℚ
  reason : Option String
deriving DecidableEq, Repr

/-- A triage sub-object with every key absent, the `it.get("triage", {})`
default. -/
def emptyTriage : Triage := ⟨none, none, none, none, none, none⟩

/-- One element of `triaged_logs.json`.  Only the fields read by
`build_summary`, the fallback planners and `plan_actions` are kept. -/
structure TriagedItem where
  idx : Option Int
  signature : Option String
  service : Option String
  java_class : Option String
  message : Option String
  count : Option Int
  stack_excerpt : Option String
  triage : Option Triage
deriving DecidableEq, Repr

/-- The `summary` dictionary produced by `build_summary`; the two counter
dictionaries are association lists with unique keys. -/
structure Summary where
  log_count : Nat
  cluster_count : Nat
  triaged_cluster_count : Nat
  by_label : List (String × Nat)
  by_priority : List (String × Nat)
  internal_high_count : Nat
deriving DecidableEq, Repr

/-- The label string `build_summary` computes for an item:
`(triage.get("label") or "").strip()`.  For string-or-absent values the
Python `or ""` coincides with `getD ""`, since `strip` of `""` is `""`. -/
def summaryLabel (it : TriagedItem) : String :=
  pyStrip (((it.triage.getD emptyTriage).label).getD "")

/-- The priority string `build_summary` computes for an item. -/
def summaryPriority (it : TriagedItem) : String :=
  pyStrip (((it.triage.getD emptyTriage).priority).getD "")

/-- Loop body of `build_summary`: thread the two counter dicts and the
`internal_high_count` accumulator over one item.  The source also computes a
`severity` local variable which it never uses afterwards. -/
def summaryStep (acc : List (String × Nat) × List (String × Nat) × Nat)
    (it : TriagedItem) : List (String × Nat) × List (String × Nat) × Nat :=
  let label := summaryLabel it
  let priority := summaryPriority it
  let byLabel := if label ≠ "" then bumpCount acc.1 label else acc.1
  let byPriority := if priority ≠ "" then bumpCount acc.2.1 priority else acc.2.1
  let ih := if label = "internal_error" ∧ priority = "high" then acc.2.2 + 1 else acc.2.2
  (byLabel, byPriority, ih)

/-- Embedding of `build_summary` (`tools/summary.py`).  The raw-log count is
read from a file in the source and is passed in here; the final file write is
omitted. -/
def build_summary (log_count : Nat) (triaged_items : List TriagedItem) : Summary :=
  let acc := triaged_items.foldl summaryStep ([], [], 0)
  { log_count := log_count
    cluster_count := triaged_items.length
    triaged_cluster_count := triaged_items.length
    by_label := acc.1
    by_priority := acc.2.1
    internal_high_count := acc.2.2 }

/-- Helper for stating C2: the number of items whose *stored* label and
priority are literally `"internal_error"` and `"high"`, the reading the claim
uses (no whitespace trimming). -/
def rawInternalHigh (items : List TriagedItem) : Nat :=
  (items.filter (fun it =>
    (it.triage.getD emptyTriage).label = some "internal_error" ∧
    (it.triage.getD emptyTriage).priority = some "high")).length

/-- Helper for stating C2 as amended: the number of items whose label and
priority equal the required strings after the `strip()` the source applies. -/
def trimmedInternalHigh (items : List TriagedItem) : Nat :=
  (items.filter (fun it =>
    summaryLabel it = "internal_error" ∧ summaryPriority it = "high")).length

/-- An item whose stored label carries surrounding whitespace; `build_summary`
still counts it because of the `strip()` call. -/
def paddedItem : TriagedItem :=
  { idx := some 0, signature := some "sig0", service := none, java_class := none
    message := none, count := some 1, stack_excerpt := none
    triage := some
      { label := some " internal_error ", service := none
        priority := some "high", severity := some "low"
        confidence := none, reason := none } }

theorem internal_high_fold (items : List TriagedItem)
    (b p : List (String × Nat)) (n : Nat) :
    (items.foldl summaryStep (b, p, n)).2.2 = n + trimmedInternalHigh items := by
  induction items generalizing b p n with
  | nil => simp [trimmedInternalHigh]
  | cons it rest ih =>
    by_cases h : summaryLabel it = "internal_error" ∧ summaryPriority it = "high"
    · simp only [List.foldl_cons, summaryStep, if_pos h, ih, trimmedInternalHigh,
        List.filter_cons]
      have : (decide (summaryLabel it = "internal_error" ∧ summaryPriority it = "high")) = true := by
        simpa using h
      simp [this, trimmedInternalHigh]
      omega
    · simp only [List.foldl_cons, summaryStep, if_neg h, ih, trimmedInternalHigh,
        List.filter_cons]
      have : (decide (summaryLabel it = "internal_error" ∧ summaryPriority it = "high")) = false := by
        simpa using h
      simp [this, trimmedInternalHigh]

/-- C2, counterexample: an item stored with label `" internal_error "` (padded
with spaces) and priority `"high"` is counted by `build_summary`, although the
set the claim describes, read over the stored field values, is empty. -/
theorem summary_internal_high_counterexample :
    (build_summary 0 [paddedItem]).internal_high_count = 1 ∧ rawInternalHigh [paddedItem] = 0 := by
  constructor
  · rfl
  · rfl

/-- C2 (amended): `internal_high_count` equals the number of items whose
label is `"internal_error"` and whose priority is `"high"` after the
whitespace-trimming `build_summary` applies (missing values read as `""`),
and the count is unaffected by every severity and confidence value: replacing
each item’s severity and confidence arbitrarily leaves it unchanged. -/
theorem summary_internal_high_count (log_count : Nat) (items : List TriagedItem)
    (sev : Option String) (conf : Option ℚ) :
    (build_summary log_count items).internal_high_count = trimmedInternalHigh items ∧
    (build_summary log_count
        (items.map (fun it =>
          { it with triage := some { it.triage.getD emptyTriage with
              severity := sev, confidence := conf } }))).internal_high_count =
      (build_summary log_count items).internal_high_count := by
  have base : ∀ l : List TriagedItem,
      (build_summary log_count l).internal_high_count = trimmedInternalHigh l := by
    intro l
    simpa using internal_high_fold l [] [] 0
  refine ⟨base items, ?_⟩
  rw [base, base]
  induction items with
  | nil => rfl
  | cons it rest ih =>
    simp only [List.map_cons, trimmedInternalHigh, List.filter_cons] at *
    have hl : summaryLabel { it with triage := some { it.triage.getD emptyTriage with
        severity := sev, confidence := conf } } = summaryLabel it := by
      simp [summaryLabel]
    have hp : summaryPriority { it with triage := some { it.triage.getD emptyTriage with
        severity := sev, confidence := conf } } = summaryPriority it := by
      simp [summaryPriority]
    rw [hl, hp]
    by_cases h : summaryLabel it = "internal_error" ∧ summaryPriority it = "high"
    · have hd : (decide (summaryLabel it = "internal_error" ∧ summaryPriority it = "high")) = true := by
        simpa using h
      simpa [hd, trimmedInternalHigh] using ih
    · have hd : (decide (summaryLabel it = "internal_error" ∧ summaryPriority it = "high")) = false := by
        simpa using h
      simpa [hd, trimmedInternalHigh] using ih

/-! ## Deterministic fallback planners (`tools/executor.py` and
`agents/executor.py`, both named `build_baseline_plan`) -/

/-- One entry of a baseline plan’s `actions` list.  Each variant attaches a
different set of parameter keys, so every parameter field is optional: `none`
means the key is absent from the action dictionary, `some v` that it is
present with value `v` (which may itself be Python `None`). -/
structure BAction where
  agent : String
  run : Bool
  cluster_indices : Option (Option (List Int)) := none
  max_tickets : Option (Option Int) := none
  min_severity : Option (Option String) := none
  min_confidence : Option (Option ℚ) := none
  for_labels : Option (List String) := none
  min_count : Option Int := none
  include_sections : Option (List String) := none
deriving DecidableEq, Repr

/-- A baseline plan: the actions plus the fixed `global_policy` and `reason`
fields both variants attach. -/
structure BPlan where
  actions : List BAction
  ticket_strategy : String
  noise_handling : String
  reason : String
deriving DecidableEq, Repr

/-- Embedding of `build_baseline_plan` from `tools/executor.py` (the variant
`app.py` wires into `run_full_pipeline`).  The source also computes
`has_external`, `has_noise` and an `include_sections` list that no action
ever carries, so they are dead locals kept here under underscores. -/
def build_baseline_plan_tools (summary : Summary) : BPlan :=
  let by_label := summary.by_label
  let internal_high_count := summary.internal_high_count
  let triaged_count := summary.triaged_cluster_count
  let _has_external := decide (0 < countGet by_label "external_service")
  let _has_noise := decide (0 < countGet by_label "noise")
  let run_jira := decide (0 < internal_high_count)
  let run_filters := decide (0 < triaged_count)
  let run_confluence := run_jira || run_filters
  { actions :=
      [ { agent := "JIRA_AGENT", run := run_jira, cluster_indices := some none },
        { agent := "FILTER_AGENT", run := run_filters },
        { agent := "CONFLUENCE_AGENT", run := run_confluence } ]
    ticket_strategy := "baseline"
    noise_handling := "basic_filters"
    reason := "Static pipeline plan without LLM orchestration: create Jira drafts for high-priority internal errors; suggest filters for processed errors; update Confluence when something ran." }

/-- Embedding of `build_baseline_plan` from `agents/executor.py`.  The
`FilterSuggestions` action is only appended when there is at least one
`external_service`-labelled cluster, and the `ConfluenceDraft` action is
always appended with `run = True`.  The source reads `by_priority` into a
local it never uses. -/
def build_baseline_plan_agents (summary : Summary) : BPlan :=
  let by_label := summary.by_label
  let internal_high_count := summary.internal_high_count
  let run_jira := decide (0 < internal_high_count)
  let jiraAct : BAction :=
    { agent := "JiraDrafts", run := run_jira
      max_tickets := some none, min_severity := some none, min_confidence := some none }
  let external_count := countGet by_label "external_service"
  let run_filters := decide (0 < external_count)
  let filterActs : List BAction :=
    if run_filters then
      [ { agent := "FilterSuggestions", run := true
          for_labels := some ["external_service"], min_count := some 50 } ]
    else []
  let confAct : BAction :=
    { agent := "ConfluenceDraft", run := true
      include_sections := some ["summary", "jira_links", "filters"] }
  { actions := [jiraAct] ++ filterActs ++ [confAct]
    ticket_strategy := "baseline"
    noise_handling := "basic_filters"
    reason := "Static pipeline plan without LLM orchestration: always generate a Confluence summary, create Jira drafts for high-priority internal errors, and suggest filters for external_service noise." }

/-- A summary with every count zero and empty counter dicts. -/
def zeroSummary : Summary :=
  { log_count := 0, cluster_count := 0, triaged_cluster_count := 0
    by_label := [], by_priority := [], internal_high_count := 0 }

/-- A cluster triaged as an internal error of high priority (the end-to-end
scenario item: severity high, confidence 0.9, count 10). -/
def hiCluster : TriagedItem :=
  { idx := some 0, signature := some "sigA", service := some "svc"
    java_class := some "com.example.Foo", message := some "boom"
    count := some 10, stack_excerpt := some ""
    triage := some
      { label := some "internal_error", service := some "svc"
        priority := some "high", severity := some "high"
        confidence := some (9/10), reason := some "r" } }

/-- The same cluster with priority lowered to `"low"`. -/
def loCluster : TriagedItem :=
  { idx := some 0, signature := some "sigA", service := some "svc"
    java_class := some "com.example.Foo", message := some "boom"
    count := some 10, stack_excerpt := some ""
    triage := some
      { label := some "internal_error", service := some "svc"
        priority := some "low", severity := some "high"
        confidence := some (9/10), reason := some "r" } }

/-- C4, counterexample: on an all-zero summary the `agents/executor.py`
variant emits a report (`ConfluenceDraft`) action with `run = true` although
neither of the other two actions runs (the filter action is absent
altogether), so the report action does not run "if and only if at least one
of the other two actions runs". -/
theorem baseline_plan_report_counterexample :
    ((build_baseline_plan_agents zeroSummary).actions.map (fun a => (a.agent, a.run))) =
      [("JiraDrafts", false), ("ConfluenceDraft", true)] := by
  rfl

/-- C4 (amended): in the `tools/executor.py` variant the ticket action runs
iff `internal_high_count > 0`, the filter action iff there is at least one
triaged item, and the report action iff one of the other two runs; in the
`agents/executor.py` variant the ticket action runs iff
`internal_high_count > 0`, a filter action is present (with `run = true` and
the fixed floor `min_count = 50`) iff the `external_service` label count is
positive, and the report action always has `run = true`.  In both variants
the single-cluster scenario behaves as claimed: priority `"high"` gives a
ticket action with `run = true`, priority `"low"` gives `run = false`. -/
theorem baseline_plan_characterisation (s : Summary) :
    ((build_baseline_plan_tools s).actions.map (fun a => (a.agent, a.run))) =
      [("JIRA_AGENT", decide (0 < s.internal_high_count)),
       ("FILTER_AGENT", decide (0 < s.triaged_cluster_count)),
       ("CONFLUENCE_AGENT",
        decide (0 < s.internal_high_count) || decide (0 < s.triaged_cluster_count))] ∧
    ((build_baseline_plan_agents s).actions.map (fun a => (a.agent, a.run, a.min_count))) =
      (if 0 < countGet s.by_label "external_service" then
        [("JiraDrafts", decide (0 < s.internal_high_count), none),
         ("FilterSuggestions", true, some 50),
         ("ConfluenceDraft", true, none)]
      else
        [("JiraDrafts", decide (0 < s.internal_high_count), none),
         ("ConfluenceDraft", true, none)]) ∧
    (((build_baseline_plan_tools (build_summary 10 [hiCluster])).actions.find?
        (fun a => a.agent = "JIRA_AGENT")).map (fun a => a.run)) = some true ∧
    (((build_baseline_plan_tools (build_summary 10 [loCluster])).actions.find?
        (fun a => a.agent = "JIRA_AGENT")).map (fun a => a.run)) = some false ∧
    (((build_baseline_plan_agents (build_summary 10 [hiCluster])).actions.find?
        (fun a => a.agent = "JiraDrafts")).map (fun a => a.run)) = some true ∧
    (((build_baseline_plan_agents (build_summary 10 [loCluster])).actions.find?
        (fun a => a.agent = "JiraDrafts")).map (fun a => a.run)) = some false := by
  refine ⟨rfl, ?_, rfl, rfl, rfl, rfl⟩
  by_cases h : 0 < countGet s.by_label "external_service"
  · simp [build_baseline_plan_agents, h]
  · simp [build_baseline_plan_agents, h]

/-! ## Fingerprinter (`make_cluster_signature` in `agents/llm_triage.py`)

The signature is `sha1(((java_class or "") + "|" + (message or "")) with every
digit run replaced by "#").hexdigest()[:12]`.  SHA-1 is implemented below over
`Nat` byte lists with explicit reduction modulo `2 ^ 32`. -/

/-- Replace every maximal run of decimal digits by a single `#`, the effect of
`re.sub(r"\d+", "#", s)` (digits here are the ASCII `0`-`9`; the log data the
pipeline handles contains no other decimal digits).  The boolean records
whether the previous character was a digit, so only the first digit of a run
emits the placeholder. -/
def normAux : Bool → List Char → List Char
  | _, [] => []
  | prevDigit, c :: rest =>
    if c.isDigit then
      if prevDigit then normAux true rest else '#' :: normAux true rest
    else c :: normAux false rest

/-- Digit-run normalisation on strings. -/
def normDigits (s : String) : String := ⟨normAux false s.data⟩

/-- The modulus of 32-bit machine arithmetic. -/
def M32 : Nat := 4294967296

/-- Rotate a 32-bit word left by `n` bits. -/
def rotl (n x : Nat) : Nat := ((x <<< n) % M32) ||| (x >>> (32 - n))

/-- Big-endian bytes of `x`, `n` bytes wide. -/
def beBytes (n x : Nat) : List Nat :=
  match n with
  | 0 => []
  | m + 1 => ((x >>> (8 * m)) % 256) :: beBytes m x

/-- Pack big-endian bytes into 32-bit words. -/
def toWordsBE : List Nat → List Nat
  | b0 :: b1 :: b2 :: b3 :: rest => (((b0 * 256 + b1) * 256 + b2) * 256 + b3) :: toWordsBE rest
  | _ => []

/-- Next word of the SHA-1 message schedule from the words produced so far. -/
def nextW (acc : List Nat) : Nat :=
  let n := acc.length
  rotl 1 ((((acc.getD (n - 3) 0).xor (acc.getD (n - 8) 0)).xor
    (acc.getD (n - 14) 0)).xor (acc.getD (n - 16) 0))

/-- Extend the 16-word schedule by `fuel` further words. -/
def extendW : List Nat → Nat → List Nat
  | acc, 0 => acc
  | acc, fuel + 1 => extendW (acc ++ [nextW acc]) fuel

/-- The round function and round constant of SHA-1 for round `i`. -/
def sha1FK (i b c d : Nat) : Nat × Nat :=
  if i < 20 then ((b &&& c) ||| ((b ^^^ 4294967295) &&& d), 1518500249)
  else if i < 40 then ((b ^^^ c) ^^^ d, 1859775393)
  else if i < 60 then (((b &&& c) ||| (b &&& d)) ||| (c &&& d), 2400959708)
  else ((b ^^^ c) ^^^ d, 3395469782)

/-- The five 32-bit working registers of SHA-1. -/
structure Sha1State where
  a : Nat
  b : Nat
  c : Nat
  d : Nat
  e : Nat
deriving DecidableEq, Repr

/-- One SHA-1 round. -/
def sha1Round (st : Sha1State) (iw : Nat × Nat) : Sha1State :=
  let fk := sha1FK iw.1 st.b st.c st.d
  let temp := (rotl 5 st.a + fk.1 + st.e + fk.2 + iw.2) % M32
  ⟨temp, st.a, rotl 30 st.b, st.c, st.d⟩

/-- Process one 64-byte chunk. -/
def sha1Chunk (h : Sha1State) (block : List Nat) : Sha1State :=
  let ws := extendW (toWordsBE block) 64
  let r := ((List.range 80).zip ws).foldl sha1Round h
  ⟨(h.a + r.a) % M32, (h.b + r.b) % M32, (h.c + r.c) % M32,
   (h.d + r.d) % M32, (h.e + r.e) % M32⟩

/-- Split a byte list into 64-byte chunks; the fuel argument (instantiated
with the list length) keeps the recursion structural so that the kernel can
evaluate it. -/
def chunks64Fuel : Nat → List Nat → List (List Nat)
  | 0, _ => []
  | _, [] => []
  | fuel + 1, l => l.take 64 :: chunks64Fuel fuel (l.drop 64)

/-- Split a byte list into 64-byte chunks. -/
def chunks64 (l : List Nat) : List (List Nat) := chunks64Fuel l.length l

/-- SHA-1 padding: a `0x80` byte, zeros up to 56 mod 64, and the bit length
as an 8-byte big-endian integer. -/
def sha1Pad (msg : List Nat) : List Nat :=
  let len := msg.length
  let zeros := (56 + 64 - ((len + 1) % 64)) % 64
  msg ++ [128] ++ List.replicate zeros 0 ++ beBytes 8 (8 * len)

/-- The 20-byte SHA-1 digest of a byte list. -/
def sha1Nat (msg : List Nat) : List Nat :=
  let final := (chunks64 (sha1Pad msg)).foldl sha1Chunk
    ⟨1732584193, 4023233417, 2562383102, 271733878, 3285377520⟩
  beBytes 4 final.a ++ beBytes 4 final.b ++ beBytes 4 final.c ++
    beBytes 4 final.d ++ beBytes 4 final.e

/-- Lower-case hex digit for a value below 16. -/
def hexChar (n : Nat) : Char := if n < 10 then Char.ofNat (48 + n) else Char.ofNat (87 + n)

/-- Lower-case hex rendering of a byte list, two digits per byte
(`hexdigest` in `hashlib`). -/
def hexChars : List Nat → List Char
  | [] => []
  | b :: rest => hexChar (b / 16) :: hexChar (b % 16) :: hexChars rest

/-- UTF-8 bytes of a string, as `Nat`s. -/
def strBytes (s : String) : List Nat := s.toUTF8.toList.map (fun b => b.toNat)

/-- Embedding of `make_cluster_signature` (`agents/llm_triage.py`): hash of
component and message with digit runs masked, truncated to 12 hex digits. -/
def make_cluster_signature (java_class message : Option String) : String :=
  let base := (java_class.getD "") ++ "|" ++ (message.getD "")
  let normalized := normDigits base
  ⟨(hexChars (sha1Nat (strBytes normalized))).take 12⟩

set_option maxRecDepth 100000 in
/-- Sanity check of the SHA-1 core against the published test vector for the
empty message. -/
theorem sha1_empty_vector :
    (⟨hexChars (sha1Nat [])⟩ : String) = "da39a3ee5e6b4b0d3255bfef95601890afd80709" := by
  rfl

set_option maxRecDepth 100000 in
/-- Sanity check of the SHA-1 core against the published test vector for
`"abc"`. -/
theorem sha1_abc_vector :
    (⟨hexChars (sha1Nat [97, 98, 99])⟩ : String) = "a9993e364706816aba3e25717850c26c9cd0d89d" := by
  rfl

theorem normAux_append_sep (xs ys : List Char) (b : Bool) :
    normAux b (xs ++ '|' :: ys) = normAux b xs ++ '|' :: normAux false ys := by
  induction xs generalizing b with
  | nil => simp [normAux]
  | cons c rest ih =>
    by_cases hc : c.isDigit
    · cases b <;> simp [normAux, hc, ih]
    · simp [normAux, hc, ih]

theorem beBytes_length (n x : Nat) : (beBytes n x).length = n := by
  induction n generalizing x with
  | zero => rfl
  | succ m ih => simp [beBytes, ih]

theorem beBytes_lt (n x : Nat) : ∀ y ∈ beBytes n x, y < 256 := by
  induction n generalizing x with
  | zero => intro y hy; simp [beBytes] at hy
  | succ m ih =>
    intro y hy
    simp only [beBytes, List.mem_cons] at hy
    rcases hy with h | h
    · subst h; exact Nat.mod_lt _ (by omega)
    · exact ih x y h

theorem hexChars_length (l : List Nat) : (hexChars l).length = 2 * l.length := by
  induction l with
  | nil => rfl
  | cons b rest ih => simp [hexChars, ih]; omega

theorem hexChar_mem_alphabet (n : Nat) (h : n < 16) :
    hexChar n ∈ ("0123456789abcdef").data := by
  interval_cases n <;> decide

theorem hexChars_mem_alphabet (l : List Nat) (hl : ∀ b ∈ l, b < 256) :
    ∀ ch ∈ hexChars l, ch ∈ ("0123456789abcdef").data := by
  induction l with
  | nil => intro ch hc; simp [hexChars] at hc
  | cons b rest ih =>
    intro ch hc
    have hb : b < 256 := hl b (by simp)
    simp only [hexChars, List.mem_cons] at hc
    rcases hc with h | h | h
    · subst h; exact hexChar_mem_alphabet _ (by omega)
    · subst h; exact hexChar_mem_alphabet _ (Nat.mod_lt _ (by omega))
    · exact ih (fun x hx => hl x (by simp [hx])) ch h

theorem sha1Nat_length (msg : List Nat) : (sha1Nat msg).length = 20 := by
  simp [sha1Nat, beBytes_length]

theorem sha1Nat_lt (msg : List Nat) : ∀ b ∈ sha1Nat msg, b < 256 := by
  intro b hb
  simp only [sha1Nat, List.mem_append] at hb
  rcases hb with ((((h | h) | h) | h) | h) <;> exact beBytes_lt _ _ _ h

/-- C3: the fingerprint is a 12-character lower-case hex string, and it is
invariant under any rewriting of the message that preserves the digit-masked
text: for a fixed component, two messages with the same digit-run
normalisation receive the same fingerprint.  Determinism across calls is
immediate because `make_cluster_signature` is a Lean function of its two
arguments alone. -/
theorem fingerprint_digit_invariant (jc : Option String) (m1 m2 : String) :
    (make_cluster_signature jc (some m1)).length = 12 ∧
    (∀ ch ∈ (make_cluster_signature jc (some m1)).data, ch ∈ ("0123456789abcdef").data) ∧
    (normDigits m1 = normDigits m2 →
      make_cluster_signature jc (some m1) = make_cluster_signature jc (some m2)) := by
  refine ⟨?_, ?_, ?_⟩
  · show (String.mk _).length = 12
    rw [String.length_mk, List.length_take, hexChars_length, sha1Nat_length]
    rfl
  · intro ch hch
    have := List.take_subset 12 (hexChars (sha1Nat (strBytes (normDigits ((jc.getD "") ++ "|" ++ m1)))))
    exact hexChars_mem_alphabet _ (sha1Nat_lt _) ch (this hch)
  · intro hnorm
    have hdata : normAux false m1.data = normAux false m2.data := by
      have := congrArg String.data hnorm
      simpa [normDigits] using this
    have hbase : normDigits ((jc.getD "") ++ "|" ++ m1) = normDigits ((jc.getD "") ++ "|" ++ m2) := by
      apply congrArg String.mk
      have h1 : ((jc.getD "") ++ "|" ++ m1).data = (jc.getD "").data ++ '|' :: m1.data := by
        simp [String.data_append]
      have h2 : ((jc.getD "") ++ "|" ++ m2).data = (jc.getD "").data ++ '|' :: m2.data := by
        simp [String.data_append]
      show normAux false ((jc.getD "") ++ "|" ++ m1).data = normAux false ((jc.getD "") ++ "|" ++ m2).data
      rw [h1, h2, normAux_append_sep, normAux_append_sep, hdata]
    simp only [make_cluster_signature, Option.getD_some]
    rw [hbase]

/-! ## Clusterer (`_cluster` in `tools/log_preprocessor.py`)

Events are grouped by `(java_class or "<unknown_class>", (message or "").strip())`
in first-seen key order (the `defaultdict` preserves insertion order); each
group is sorted by timestamp and rendered as a cluster; clusters are then
sorted by descending count with Python’s stable sort. -/

/-- A normalized event as produced by `_normalize`; the `raw` payload is not
read by `_cluster` and is omitted. -/
structure NLog where
  timestamp : Option String
  level : Option String
  service : Option String
  message : Option String
  java_class : Option String
  trace_id : Option String
deriving DecidableEq, Repr

/-- The grouping key of `_cluster`:
`(e.get("java_class") or "<unknown_class>", (e.get("message") or "").strip())`. -/
def clusterKey (e : NLog) : String × String :=
  (pyOrStr e.java_class "<unknown_class>", pyStrip (pyOrStr e.message ""))

/-- Stable insertion into a sorted list: `x` goes in front of the first
element it compares `le` to, so elements with equal keys keep their relative
order. -/
def insertByLe (le : α → α → Bool) (x : α) : List α → List α
  | [] => [x]
  | y :: ys => if le x y then x :: y :: ys else y :: insertByLe le x ys

/-- Stable sort by insertion, modelling Python’s stable `sorted`. -/
def sortByLe (le : α → α → Bool) (l : List α) : List α := l.foldr (insertByLe le) []

theorem insertByLe_perm (le : α → α → Bool) (x : α) (l : List α) :
    (insertByLe le x l).Perm (x :: l) := by
  induction l with
  | nil => simp [insertByLe]
  | cons y ys ih =>
    by_cases h : le x y
    · simp [insertByLe, h]
    · simp only [insertByLe, h, if_neg]
      exact ((ih.cons y).trans (List.Perm.swap x y ys)).symm.symm

theorem sortByLe_perm (le : α → α → Bool) (l : List α) : (sortByLe le l).Perm l := by
  induction l with
  | nil => simp [sortByLe]
  | cons x xs ih =>
    exact (insertByLe_perm le x (sortByLe le xs)).trans (ih.cons x)

/-- Append `e` to the group keyed `k`, creating the group at the end when the
key is new: the behaviour of `groups[k].append(e)` on an insertion-ordered
`defaultdict(list)`. -/
def addToGroups (gs : List ((String × String) × List NLog)) (k : String × String)
    (e : NLog) : List ((String × String) × List NLog) :=
  match gs with
  | [] => [(k, [e])]
  | (k0, items) :: rest =>
    if k0 = k then (k0, items ++ [e]) :: rest else (k0, items) :: addToGroups rest k e

/-- The grouping loop of `_cluster`. -/
def groupLogs (logs : List NLog) : List ((String × String) × List NLog) :=
  logs.foldl (fun gs e => addToGroups gs (clusterKey e) e) []

/-- One output cluster of `_cluster`. -/
structure ECluster where
  java_class : String
  message : String
  count : Nat
  sample : NLog
  timestamps : List (Option String)
deriving DecidableEq, Repr

/-- The sort key of the per-group timestamp sort:
`x.get("timestamp") or ""`. -/
def tsLe (x y : NLog) : Bool := decide (pyOrStr x.timestamp "" ≤ pyOrStr y.timestamp "")

/-- Render one group as a cluster.  In the source the group is never empty,
so `items_sorted[0]` is total; an all-`none` event stands in for the
unreachable empty case. -/
def mkCluster (k : String × String) (items : List NLog) : ECluster :=
  let items_sorted := sortByLe tsLe items
  { java_class := k.1
    message := k.2
    count := items.length
    sample := items_sorted.headD ⟨none, none, none, none, none, none⟩
    timestamps := items_sorted.map (fun x => x.timestamp) }

/-- Descending-count comparison; Python’s `sort(key=count, reverse=True)` is
stable, as is insertion with this comparison. -/
def countDesc (c d : ECluster) : Bool := decide (d.count ≤ c.count)

/-- Embedding of `_cluster` (`tools/log_preprocessor.py`; the copy in
`agents/log_preprocessor.py` is textually identical). -/
def clusterLogs (logs : List NLog) : List ECluster :=
  sortByLe countDesc ((groupLogs logs).map (fun g => mkCluster g.1 g.2))

theorem addToGroups_flatten (gs : List ((String × String) × List NLog))
    (k : String × String) (e : NLog) :
    (((addToGroups gs k e).map (fun g => g.2)).flatten).Perm
      ((gs.map (fun g => g.2)).flatten ++ [e]) := by
  induction gs with
  | nil => simp [addToGroups]
  | cons g rest ih =>
    rcases g with ⟨k0, items⟩
    by_cases h : k0 = k
    · simp only [addToGroups, h, if_pos, List.map_cons, List.flatten_cons,
        List.append_assoc, List.singleton_append]
      exact List.Perm.append_left items (@List.perm_append_comm _ [e] _)
    · simp only [addToGroups, h, if_neg, not_false_iff, List.map_cons, List.flatten_cons,
        List.append_assoc]
      exact List.Perm.append_left items ih

theorem groupLogs_flatten_aux (logs : List NLog)
    (gs : List ((String × String) × List NLog)) :
    (((logs.foldl (fun gs e => addToGroups gs (clusterKey e) e) gs).map
        (fun g => g.2)).flatten).Perm ((gs.map (fun g => g.2)).flatten ++ logs) := by
  induction logs generalizing gs with
  | nil => simp
  | cons e rest ih =>
    simp only [List.foldl_cons]
    refine (ih (addToGroups gs (clusterKey e) e)).trans ?_
    have h1 := addToGroups_flatten gs (clusterKey e) e
    simpa [List.append_assoc] using h1.append_right rest

theorem groupLogs_flatten (logs : List NLog) :
    (((groupLogs logs).map (fun g => g.2)).flatten).Perm logs := by
  simpa using groupLogs_flatten_aux logs []

theorem flatten_map_perm (l : List β) (f g : β → List γ)
    (h : ∀ x ∈ l, (f x).Perm (g x)) : ((l.map f).flatten).Perm ((l.map g).flatten) := by
  induction l with
  | nil => simp
  | cons x xs ih =>
    simp only [List.map_cons, List.flatten_cons]
    exact (h x (by simp)).append (ih (fun y hy => h y (by simp [hy])))

theorem clusterLogs_timestamps_perm (logs : List NLog) :
    (((clusterLogs logs).map (fun c => c.timestamps)).flatten).Perm
      (logs.map (fun e => e.timestamp)) := by
  have hsort : ((clusterLogs logs).map (fun c => c.timestamps)).Perm
      (((groupLogs logs).map (fun g => mkCluster g.1 g.2)).map (fun c => c.timestamps)) :=
    (sortByLe_perm countDesc _).map _
  refine hsort.flatten.trans ?_
  have hmid : ((((groupLogs logs).map (fun g => mkCluster g.1 g.2)).map
      (fun c => c.timestamps)).flatten).Perm
      (((groupLogs logs).map (fun g => g.2.map (fun x => x.timestamp))).flatten) := by
    rw [List.map_map]
    exact flatten_map_perm _ _ _ (fun g _ => ((sortByLe_perm tsLe g.2).map _))
  refine hmid.trans ?_
  have heq : ((groupLogs logs).map (fun g => g.2.map (fun x => x.timestamp))).flatten =
      (((groupLogs logs).map (fun g => g.2)).flatten).map (fun x => x.timestamp) := by
    rw [List.map_flatten, List.map_map]
    rfl
  rw [heq]
  exact (groupLogs_flatten logs).map _

theorem clusterLogs_count_eq (logs : List NLog) :
    ∀ c ∈ clusterLogs logs, c.count = c.timestamps.length := by
  intro c hc
  have hc2 : c ∈ (groupLogs logs).map (fun g => mkCluster g.1 g.2) :=
    ((sortByLe_perm countDesc _).mem_iff).mp hc
  obtain ⟨g, hg, rfl⟩ := List.mem_map.mp hc2
  simp only [mkCluster, List.length_map]
  exact ((sortByLe_perm tsLe g.2).length_eq).symm

theorem addToGroups_mem_new (gs : List ((String × String) × List NLog))
    (k : String × String) (e : NLog) :
    ∃ g ∈ addToGroups gs k e, g.1 = k ∧ e ∈ g.2 := by
  induction gs with
  | nil => exact ⟨(k, [e]), by simp [addToGroups]⟩
  | cons g0 rest ih =>
    rcases g0 with ⟨k0, items⟩
    by_cases h : k0 = k
    · exact ⟨(k0, items ++ [e]), by simp [addToGroups, h]⟩
    · obtain ⟨g, hg, hk, he⟩ := ih
      exact ⟨g, by simp [addToGroups, h, hg], hk, he⟩

theorem addToGroups_mem_preserve (gs : List ((String × String) × List NLog))
    (k : String × String) (e : NLog) (g : (String × String) × List NLog)
    (hg : g ∈ gs) (x : NLog) (hx : x ∈ g.2) :
    ∃ g2 ∈ addToGroups gs k e, g2.1 = g.1 ∧ x ∈ g2.2 := by
  induction gs with
  | nil => cases hg
  | cons g0 rest ih =>
    rcases g0 with ⟨k0, items⟩
    rcases List.mem_cons.mp hg with heq | hmem
    · subst heq
      by_cases h : k0 = k
      · exact ⟨(k0, items ++ [e]), by simp [addToGroups, h], rfl, by simp [hx]⟩
      · exact ⟨(k0, items), by simp [addToGroups, h], rfl, hx⟩
    · by_cases h : k0 = k
      · exact ⟨g, by simp [addToGroups, h, hmem], rfl, hx⟩
      · obtain ⟨g2, hg2, hk, hx2⟩ := ih hmem
        exact ⟨g2, by simp [addToGroups, h, hg2], hk, hx2⟩

theorem foldGroups_mem_preserve (logs : List NLog)
    (gs : List ((String × String) × List NLog)) (g : (String × String) × List NLog)
    (hg : g ∈ gs) (x : NLog) (hx : x ∈ g.2) :
    ∃ g2 ∈ logs.foldl (fun acc e => addToGroups acc (clusterKey e) e) gs,
      g2.1 = g.1 ∧ x ∈ g2.2 := by
  induction logs generalizing gs g with
  | nil => exact ⟨g, hg, rfl, hx⟩
  | cons e rest ih =>
    obtain ⟨g2, hg2, hk, hx2⟩ := addToGroups_mem_preserve gs (clusterKey e) e g hg x hx
    obtain ⟨g3, hg3, hk3, hx3⟩ := ih _ g2 hg2 hx2
    exact ⟨g3, hg3, hk3.trans hk, hx3⟩

theorem foldGroups_mem (logs : List NLog) (e : NLog) (he : e ∈ logs) :
    ∀ gs, ∃ g ∈ logs.foldl (fun acc x => addToGroups acc (clusterKey x) x) gs,
      g.1 = clusterKey e ∧ e ∈ g.2 := by
  induction logs with
  | nil => cases he
  | cons e0 rest ih =>
    intro gs
    rcases List.mem_cons.mp he with heq | hmem
    · subst heq
      obtain ⟨g, hg, hk, hx⟩ := addToGroups_mem_new gs (clusterKey e) e
      obtain ⟨g2, hg2, hk2, hx2⟩ := foldGroups_mem_preserve rest _ g hg e hx
      exact ⟨g2, hg2, hk2.trans hk, hx2⟩
    · exact ih hmem _

theorem groupLogs_mem (logs : List NLog) (e : NLog) (he : e ∈ logs) :
    ∃ g ∈ groupLogs logs, g.1 = clusterKey e ∧ e ∈ g.2 :=
  foldGroups_mem logs e he []

theorem addToGroups_keys (gs : List ((String × String) × List NLog))
    (k : String × String) (e : NLog) :
    (addToGroups gs k e).map (fun g => g.1) =
      if k ∈ gs.map (fun g => g.1) then gs.map (fun g => g.1)
      else gs.map (fun g => g.1) ++ [k] := by
  induction gs with
  | nil => simp [addToGroups]
  | cons g0 rest ih =>
    rcases g0 with ⟨k0, items⟩
    by_cases h : k0 = k
    · simp [addToGroups, h]
    · by_cases hmem : k ∈ rest.map (fun g => g.1)
      · simp [addToGroups, h, ih, hmem, Ne.symm h]
      · simp [addToGroups, h, ih, hmem, Ne.symm h]

theorem groupLogs_keys_nodup_aux (logs : List NLog) :
    ∀ gs : List ((String × String) × List NLog), (gs.map (fun g => g.1)).Nodup →
      ((logs.foldl (fun acc e => addToGroups acc (clusterKey e) e) gs).map
        (fun g => g.1)).Nodup := by
  induction logs with
  | nil => intro gs h; simpa using h
  | cons e rest ih =>
    intro gs h
    simp only [List.foldl_cons]
    refine ih _ ?_
    rw [addToGroups_keys]
    by_cases hmem : clusterKey e ∈ gs.map (fun g => g.1)
    · simpa [hmem] using h
    · simp [hmem, List.nodup_append, h]

theorem clusterLogs_keys_nodup (logs : List NLog) :
    ((clusterLogs logs).map (fun c => (c.java_class, c.message))).Nodup := by
  have hperm : ((clusterLogs logs).map (fun c => (c.java_class, c.message))).Perm
      (((groupLogs logs).map (fun g => mkCluster g.1 g.2)).map
        (fun c => (c.java_class, c.message))) :=
    (sortByLe_perm countDesc _).map _
  rw [hperm.nodup_iff]
  rw [List.map_map]
  have : ((fun c : ECluster => (c.java_class, c.message)) ∘ fun g :
      (String × String) × List NLog => mkCluster g.1 g.2) = fun g => g.1 := by
    funext g
    rfl
  rw [this]
  exact groupLogs_keys_nodup_aux logs [] (by simp)

/-- C9: for every input list of normalized events the output of `_cluster` is
an exhaustive and disjoint partition: the concatenation of the clusters’
member-timestamp lists is a permutation of the input events’ timestamps (so
the total length equals the number of input events and no event is dropped or
duplicated), every cluster’s `count` equals the length of its timestamp list,
every event lands in a cluster bearing its grouping key — in particular an
event with a missing component lands in a cluster keyed by the
`"<unknown_class>"` sentinel — and the clusters carry pairwise distinct keys,
so the cluster holding a given event is unique. -/
theorem clusterer_partition (logs : List NLog) :
    (((clusterLogs logs).map (fun c => c.timestamps)).flatten).Perm
      (logs.map (fun e => e.timestamp)) ∧
    (∀ c ∈ clusterLogs logs, c.count = c.timestamps.length) ∧
    (∀ e ∈ logs, ∃ c ∈ clusterLogs logs,
      c.java_class = (clusterKey e).1 ∧ c.message = (clusterKey e).2 ∧
      e.timestamp ∈ c.timestamps) ∧
    (∀ e ∈ logs, e.java_class = none →
      ∃ c ∈ clusterLogs logs, c.java_class = "<unknown_class>" ∧
        e.timestamp ∈ c.timestamps) ∧
    ((clusterLogs logs).map (fun c => (c.java_class, c.message))).Nodup := by
  have hcover : ∀ e ∈ logs, ∃ c ∈ clusterLogs logs,
      c.java_class = (clusterKey e).1 ∧ c.message = (clusterKey e).2 ∧
      e.timestamp ∈ c.timestamps := by
    intro e he
    obtain ⟨g, hg, hk, hx⟩ := groupLogs_mem logs e he
    refine ⟨mkCluster g.1 g.2, ?_, ?_, ?_, ?_⟩
    · exact ((sortByLe_perm countDesc _).mem_iff).mpr (List.mem_map_of_mem _ hg)
    · show g.1.1 = (clusterKey e).1
      rw [hk]
    · show g.1.2 = (clusterKey e).2
      rw [hk]
    · show e.timestamp ∈ (sortByLe tsLe g.2).map (fun x => x.timestamp)
      exact List.mem_map_of_mem _ (((sortByLe_perm tsLe g.2).mem_iff).mpr hx)
  refine ⟨clusterLogs_timestamps_perm logs, clusterLogs_count_eq logs, hcover, ?_,
    clusterLogs_keys_nodup logs⟩
  intro e he hnone
  obtain ⟨c, hc, hjc, _, hts⟩ := hcover e he
  exact ⟨c, hc, by rw [hjc]; simp [clusterKey, hnone, pyOrStr], hts⟩

/-- Concrete events for the clusterer witness: two sharing a key and one with
a missing component. -/
def demoLogC : NLog := ⟨some "t3", none, none, some "noise", none, none⟩

/-- A three-event input for the clusterer witness. -/
def demoLogs : List NLog :=
  [⟨some "t1", some "ERROR", some "svc", some "boom", some "K", none⟩,
   ⟨some "t2", some "ERROR", some "svc", some "boom", some "K", none⟩,
   demoLogC]

/-- Witness for C9: instantiating the partition theorem on a concrete
three-event input, the component-less event lands in the sentinel
`"<unknown_class>"` cluster. -/
theorem clusterer_partition_witness :
    ∃ c ∈ clusterLogs demoLogs, c.java_class = "<unknown_class>" ∧
      demoLogC.timestamp ∈ c.timestamps :=
  (clusterer_partition demoLogs).2.2.2.1 demoLogC (by decide) rfl

/-! ## Cluster Refiner (`run` in `agents/llm_cluster_refiner.py`, lines 108-168)

The merge step receives the clusters and the oracle’s `groups` list.  A group
may be any JSON value (non-dicts are skipped), its `canonical_idx` may be
absent or not convertible to `int` (the `except (TypeError, ValueError)`
path), and its `member_idxs` entries likewise; `member_idxs or []` turns an
absent, `null` or empty value into the empty list.  Cluster dictionaries are
reproduced field-for-field for the keys the refiner reads or writes; the
remaining keys (`sample`, `timestamps`, ...) are carried verbatim and never
inspected.  A cluster dictionary is never empty, so the Python `or` in the
canonical lookup selects the found dictionary exactly when the key is
present. -/

/-- A cluster as read from `clusters.json`, plus the two keys the refiner
writes (`idx` and `merged_member_idxs`). -/
structure RCluster where
  idx : Option Int
  service : Option String
  java_class : Option String
  message : Option String
  count : Option Int
  merged_member_idxs : Option (List Int)
deriving DecidableEq, Repr

/-- A JSON value in an index position: either `int`-convertible with the
given value, or a value on which `int(x)` raises. -/
inductive PyNum where
  | int (n : Int)
  | bad
deriving DecidableEq, Repr

/-- Convert a whole list with Python `int`; `none` when any element raises
(the `except (TypeError, ValueError)` branch skips the group). -/
def intList : List PyNum → Option (List Int)
  | [] => some []
  | .int n :: rest => (intList rest).map (fun l => n :: l)
  | .bad :: _ => none

/-- One element of the oracle’s `groups` list. -/
inductive OGroup where
  | notDict
  | group (canonical_idx : Option PyNum) (member_idxs : List PyNum)
deriving DecidableEq, Repr

/-- Build `cluster_by_idx`, assigning the enumeration index (and writing it
back into the cluster) when the `idx` key is absent.  Later bindings of a
duplicated key overwrite earlier ones, which `dictFind` models by searching
from the right. -/
def buildByIdxFrom : Nat → List RCluster → List (Int × RCluster)
  | _, [] => []
  | i, c :: rest =>
    (match c.idx with
     | some k => (k, c)
     | none => ((i : Int), { c with idx := some (i : Int) })) :: buildByIdxFrom (i + 1) rest

/-- The `cluster_by_idx` dictionary of `run`. -/
def buildByIdx (clusters : List RCluster) : List (Int × RCluster) :=
  buildByIdxFrom 0 clusters

/-- Python `cluster_by_idx.get(k)`: the last binding of `k` wins. -/
def dictFind (m : List (Int × RCluster)) (k : Int) : Option RCluster :=
  ((m.reverse).find? (fun p => p.1 = k)).map (fun p => p.2)

/-- The key set of the dictionary (`set(cluster_by_idx.keys())`). -/
def dictKeys (m : List (Int × RCluster)) : List Int := (m.map (fun p => p.1)).dedup

/-- The placeholder for the unreachable branches where a filtered member
index fails to resolve (the filter guarantees resolution). -/
def unreachableCluster : RCluster := ⟨none, none, none, none, none, none⟩

/-- The count the refiner reads off a member cluster:
`cluster_by_idx[idx].get("count") or 0` (for integer counts, `or 0` and
`getD 0` agree). -/
def memberCount (byIdx : List (Int × RCluster)) (k : Int) : Int :=
  ((dictFind byIdx k).getD unreachableCluster).count.getD 0

/-- The running state of the group loop: the `used_idxs` set (a list whose
membership matters) and the `merged_clusters` list. -/
structure MergeAcc where
  used : List Int
  merged : List RCluster
deriving DecidableEq, Repr

/-- One iteration of the `for g in groups` loop. -/
def stepGroup (byIdx : List (Int × RCluster)) (acc : MergeAcc) (g : OGroup) : MergeAcc :=
  match g with
  | .notDict => acc
  | .group canon members =>
    match canon with
    | none => acc
    | some cv =>
      match cv, intList members with
      | .bad, _ => acc
      | .int _, none => acc
      | .int cn, some ms0 =>
        let ms := ms0.filter (fun k =>
          decide (k ∈ byIdx.map (fun p => p.1) ∧ k ∉ acc.used))
        if h : ms = [] then acc
        else
          let canonical :=
            (dictFind byIdx cn).getD ((dictFind byIdx (ms.head h)).getD unreachableCluster)
          let total := ms.foldl (fun t k => t + memberCount byIdx k) 0
          { used := acc.used ++ ms
            merged := acc.merged ++
              [{ canonical with count := some total, merged_member_idxs := some ms }] }

/-- The group loop of `run`. -/
def refineMergeAcc (clusters : List RCluster) (groups : List OGroup) : MergeAcc :=
  groups.foldl (stepGroup (buildByIdx clusters)) ⟨[], []⟩

/-- Ascending sort of the `remaining` index set (`sorted(remaining)`). -/
def sortInts (l : List Int) : List Int := sortByLe (fun a b => decide (a ≤ b)) l

/-- The `merged_clusters` list just before renumbering: the merged groups
followed by the never-referenced clusters in ascending key order. -/
def refinePre (clusters : List RCluster) (groups : List OGroup) : List RCluster :=
  let byIdx := buildByIdx clusters
  let acc := refineMergeAcc clusters groups
  let remaining := (dictKeys byIdx).filter (fun k => decide (k ∉ acc.used))
  acc.merged ++ (sortInts remaining).map (fun k => (dictFind byIdx k).getD unreachableCluster)

/-- The final dense renumbering (`for new_idx, c in enumerate(...)`). -/
def renumberFrom : Nat → List RCluster → List RCluster
  | _, [] => []
  | i, c :: rest => { c with idx := some (i : Int) } :: renumberFrom (i + 1) rest

/-- Embedding of the merge phase of `run` (`agents/llm_cluster_refiner.py`):
the refined cluster list written to `clusters_refined.json` when the oracle
returned a dictionary with a non-empty `groups` list. -/
def refineRun (clusters : List RCluster) (groups : List OGroup) : List RCluster :=
  renumberFrom 0 (refinePre clusters groups)

/-- The original indices covered by an output cluster: the recorded
constituents for a merged cluster, its own (pre-renumbering) index for a
cluster passed through unmerged. -/
def coverage (c : RCluster) : List Int :=
  match c.merged_member_idxs with
  | some l => l
  | none => [c.idx.getD 0]

/-- The member indices a group can consume: the `int`-converted member list
of a group that passes the structural checks (a dict with a convertible
canonical index and convertible members), `[]` for a group the loop skips
before reading its members. -/
def referencedInts (g : OGroup) : List Int :=
  match g with
  | .notDict => []
  | .group none _ => []
  | .group (some .bad) _ => []
  | .group (some (.int _)) members =>
    match intList members with
    | some ms => ms
    | none => []

theorem foldl_add_map (f : Int → Int) (l : List Int) (t : Int) :
    l.foldl (fun t k => t + f k) t = t + (l.map f).sum := by
  induction l generalizing t with
  | nil => simp
  | cons k rest ih => simp [ih]; ring

theorem buildByIdxFrom_mem (l : List RCluster) (i : Nat) :
    ∀ p ∈ buildByIdxFrom i l, p.2.idx = some p.1 ∧
      ∃ c0 ∈ l, p.2.merged_member_idxs = c0.merged_member_idxs := by
  induction l generalizing i with
  | nil => intro p hp; simp [buildByIdxFrom] at hp
  | cons c rest ih =>
    intro p hp
    simp only [buildByIdxFrom, List.mem_cons] at hp
    rcases hp with heq | hmem
    · rcases hc : c.idx with _ | k
      · rw [hc] at heq
        subst heq
        exact ⟨rfl, c, by simp⟩
      · rw [hc] at heq
        subst heq
        exact ⟨hc, c, by simp⟩
    · obtain ⟨h1, c0, hc0, h2⟩ := ih (i + 1) p hmem
      exact ⟨h1, c0, by simp [hc0], h2⟩

theorem dictFind_mem (m : List (Int × RCluster)) (k : Int) (c : RCluster)
    (h : dictFind m k = some c) : (k, c) ∈ m := by
  unfold dictFind at h
  cases hf : (m.reverse).find? (fun p => decide (p.1 = k)) with
  | none => rw [hf] at h; simp at h
  | some p =>
    rw [hf, Option.map_some'] at h
    have hpred := List.find?_some hf
    have hmem := List.mem_of_find?_eq_some hf
    simp only [decide_eq_true_eq] at hpred
    rw [List.mem_reverse] at hmem
    have hc : p.2 = c := by simpa using h
    have hpkc : p = (k, c) := by
      cases p
      simp only at hpred hc
      simp [hpred, hc]
    rw [hpkc] at hmem
    exact hmem

theorem dictFind_isSome (m : List (Int × RCluster)) (k : Int) :
    (dictFind m k).isSome ↔ k ∈ m.map (fun p => p.1) := by
  rw [dictFind, Option.isSome_map', List.find?_isSome]
  constructor
  · rintro ⟨p, hp, hpred⟩
    simp only [decide_eq_true_eq] at hpred
    rw [List.mem_reverse] at hp
    exact List.mem_map.mpr ⟨p, hp, hpred⟩
  · intro hk
    obtain ⟨p, hp, hpk⟩ := List.mem_map.mp hk
    exact ⟨p, List.mem_reverse.mpr hp, by simp [hpk]⟩

theorem stepGroup_inv (byIdx : List (Int × RCluster)) (acc : MergeAcc) (g : OGroup)
    (hg : (referencedInts g).Nodup)
    (h1 : acc.used.Nodup)
    (h2 : ((acc.merged.map coverage).flatten).Perm acc.used)
    (h3 : ∀ k ∈ acc.used, k ∈ byIdx.map (fun p => p.1)) :
    (stepGroup byIdx acc g).used.Nodup ∧
    (((stepGroup byIdx acc g).merged.map coverage).flatten).Perm (stepGroup byIdx acc g).used ∧
    (∀ k ∈ (stepGroup byIdx acc g).used, k ∈ byIdx.map (fun p => p.1)) ∧
    (∀ k ∈ (stepGroup byIdx acc g).used, k ∈ acc.used ∨ k ∈ referencedInts g) ∧
    (∀ c ∈ (stepGroup byIdx acc g).merged, c ∈ acc.merged ∨ ∀ l,
      c.merged_member_idxs = some l →
        c.count = some ((l.map (memberCount byIdx)).sum)) := by
  rcases g with _ | ⟨canon, members⟩
  · exact ⟨h1, h2, h3, fun k hk => Or.inl hk, fun c hc => Or.inl hc⟩
  · rcases canon with _ | cv
    · exact ⟨h1, h2, h3, fun k hk => Or.inl hk, fun c hc => Or.inl hc⟩
    rcases cv with cn | _
    · rcases hint : intList members with _ | ms0
      · simp only [stepGroup, hint]
        exact ⟨h1, h2, h3, fun k hk => Or.inl hk, fun c hc => Or.inl hc⟩
      · have href : referencedInts (OGroup.group (some (PyNum.int cn)) members) = ms0 := by
          simp [referencedInts, hint]
        rw [href] at hg
        simp only [stepGroup, hint, href]
        by_cases hms : ms0.filter (fun k =>
            decide (k ∈ byIdx.map (fun p => p.1) ∧ k ∉ acc.used)) = []
        · rw [dif_pos hms]
          exact ⟨h1, h2, h3, fun k hk => Or.inl hk, fun c hc => Or.inl hc⟩
        · rw [dif_neg hms]
          set ms := ms0.filter (fun k =>
            decide (k ∈ byIdx.map (fun p => p.1) ∧ k ∉ acc.used)) with hmsdef
          have hmsNodup : ms.Nodup := hg.filter _
          have hmsKeys : ∀ k ∈ ms, k ∈ byIdx.map (fun p => p.1) := by
            intro k hk
            have := (List.mem_filter.mp hk).2
            simp only [decide_eq_true_eq] at this
            exact this.1
          have hmsNew : ∀ k ∈ ms, k ∉ acc.used := by
            intro k hk
            have := (List.mem_filter.mp hk).2
            simp only [decide_eq_true_eq] at this
            exact this.2
          refine ⟨?_, ?_, ?_, ?_, ?_⟩
          · exact h1.append hmsNodup (fun k hk hk2 => hmsNew k hk2 hk)
          · simp only [List.map_append, List.flatten_append, List.map_cons, List.map_nil,
              List.flatten_cons, List.flatten_nil, List.append_nil]
            exact h2.append (List.Perm.refl ms)
          · intro k hk
            rcases List.mem_append.mp hk with h | h
            · exact h3 k h
            · exact hmsKeys k h
          · intro k hk
            rcases List.mem_append.mp hk with h | h
            · exact Or.inl h
            · exact Or.inr (List.mem_of_mem_filter h)
          · intro c hc
            rcases List.mem_append.mp hc with h | h
            · exact Or.inl h
            · right
              intro l hl
              have hceq := List.mem_singleton.mp h
              subst hceq
              have hlms : ms = l := Option.some.inj hl
              subst hlms
              show some (ms.foldl (fun t k => t + memberCount byIdx k) 0) =
                some ((ms.map (memberCount byIdx)).sum)
              rw [foldl_add_map]
              simp
    · simp only [stepGroup]
      exact ⟨h1, h2, h3, fun k hk => Or.inl hk, fun c hc => Or.inl hc⟩

theorem foldStep_inv (byIdx : List (Int × RCluster)) (groups : List OGroup) (acc : MergeAcc)
    (hg : ∀ g ∈ groups, (referencedInts g).Nodup)
    (h1 : acc.used.Nodup)
    (h2 : ((acc.merged.map coverage).flatten).Perm acc.used)
    (h3 : ∀ k ∈ acc.used, k ∈ byIdx.map (fun p => p.1))
    (h5 : ∀ c ∈ acc.merged, ∀ l, c.merged_member_idxs = some l →
      c.count = some ((l.map (memberCount byIdx)).sum)) :
    (groups.foldl (stepGroup byIdx) acc).used.Nodup ∧
    (((groups.foldl (stepGroup byIdx) acc).merged.map coverage).flatten).Perm
      (groups.foldl (stepGroup byIdx) acc).used ∧
    (∀ k ∈ (groups.foldl (stepGroup byIdx) acc).used, k ∈ byIdx.map (fun p => p.1)) ∧
    (∀ k ∈ (groups.foldl (stepGroup byIdx) acc).used,
      k ∈ acc.used ∨ ∃ g ∈ groups, k ∈ referencedInts g) ∧
    (∀ c ∈ (groups.foldl (stepGroup byIdx) acc).merged, ∀ l,
      c.merged_member_idxs = some l → c.count = some ((l.map (memberCount byIdx)).sum)) := by
  induction groups generalizing acc with
  | nil => exact ⟨h1, h2, h3, fun k hk => Or.inl hk, h5⟩
  | cons g rest ih =>
    simp only [List.foldl_cons]
    obtain ⟨s1, s2, s3, s4, s5⟩ := stepGroup_inv byIdx acc g (hg g (by simp)) h1 h2 h3
    have h5s : ∀ c ∈ (stepGroup byIdx acc g).merged, ∀ l, c.merged_member_idxs = some l →
        c.count = some ((l.map (memberCount byIdx)).sum) := by
      intro c hc
      rcases s5 c hc with h | h
      · exact h5 c h
      · exact h
    obtain ⟨r1, r2, r3, r4, r5⟩ := ih (stepGroup byIdx acc g)
      (fun g2 hg2 => hg g2 (by simp [hg2])) s1 s2 s3 h5s
    refine ⟨r1, r2, r3, ?_, r5⟩
    intro k hk
    rcases r4 k hk with h | h
    · rcases s4 k h with hin | hin
      · exact Or.inl hin
      · exact Or.inr ⟨g, by simp, hin⟩
    · obtain ⟨g2, hg2, hk2⟩ := h
      exact Or.inr ⟨g2, by simp [hg2], hk2⟩

theorem flatten_map_singleton (l : List Int) (f : Int → List Int)
    (h : ∀ k ∈ l, f k = [k]) : (l.map f).flatten = l := by
  induction l with
  | nil => rfl
  | cons k rest ih =>
    simp only [List.map_cons, List.flatten_cons, h k (by simp)]
    rw [ih (fun x hx => h x (by simp [hx]))]
    rfl

/-- Resolving a live key yields the stored cluster, which carries that key in
its `idx` field and, when the input clusters carry no `merged_member_idxs`
key, none either. -/
theorem dictFind_props (clusters : List RCluster) (k : Int)
    (hk : k ∈ (buildByIdx clusters).map (fun p => p.1))
    (hclean : ∀ c ∈ clusters, c.merged_member_idxs = none) :
    ∃ c, dictFind (buildByIdx clusters) k = some c ∧ c.idx = some k ∧
      c.merged_member_idxs = none := by
  obtain ⟨c, hc⟩ := Option.isSome_iff_exists.mp ((dictFind_isSome _ k).mpr hk)
  have hmem := dictFind_mem _ k c hc
  obtain ⟨hidx, c0, hc0, hmmi⟩ := buildByIdxFrom_mem clusters 0 (k, c) hmem
  exact ⟨c, hc, hidx, hmmi.trans (hclean c0 hc0)⟩

theorem mem_refinePre_passthrough (clusters : List RCluster) (groups : List OGroup)
    (k : Int) (hk : k ∈ (buildByIdx clusters).map (fun p => p.1))
    (hclean : ∀ c ∈ clusters, c.merged_member_idxs = none)
    (hnot : k ∉ (refineMergeAcc clusters groups).used) :
    ∃ c, dictFind (buildByIdx clusters) k = some c ∧ c ∈ refinePre clusters groups ∧
      c.merged_member_idxs = none ∧ c.idx = some k := by
  obtain ⟨c, hc, hidx, hmmi⟩ := dictFind_props clusters k hk hclean
  refine ⟨c, hc, ?_, hmmi, hidx⟩
  have hrem : k ∈ ((dictKeys (buildByIdx clusters)).filter
      (fun k => decide (k ∉ (refineMergeAcc clusters groups).used))) := by
    rw [List.mem_filter]
    exact ⟨List.mem_dedup.mpr hk, by simpa using hnot⟩
  have hsorted : k ∈ sortInts ((dictKeys (buildByIdx clusters)).filter
      (fun k => decide (k ∉ (refineMergeAcc clusters groups).used))) :=
    ((sortByLe_perm _ _).mem_iff).mpr hrem
  have : c ∈ (sortInts ((dictKeys (buildByIdx clusters)).filter
      (fun k => decide (k ∉ (refineMergeAcc clusters groups).used)))).map
      (fun k => (dictFind (buildByIdx clusters) k).getD unreachableCluster) := by
    refine List.mem_map.mpr ⟨k, hsorted, ?_⟩
    rw [hc]
    rfl
  exact List.mem_append_right _ this

theorem renumberFrom_map_idx (l : List RCluster) (i : Nat) :
    (renumberFrom i l).map (fun c => c.idx) =
      (List.range' i l.length).map (fun n => some (n : Int)) := by
  induction l generalizing i with
  | nil => rfl
  | cons c rest ih => simp [renumberFrom, List.range'_succ, ih]

/-- C1 (amended): provided the assigned cluster keys are pairwise distinct,
the input clusters carry no `merged_member_idxs` key, and no oracle group
repeats a member index within its own list, the refined output covers each
original cluster index exactly once — the concatenation of the
`merged_member_idxs` lists of merged clusters and the own indices of
pass-through clusters is a permutation of the original key set; every merged
cluster’s count is the sum of its recorded constituents’ counts; and the
output is renumbered densely with consecutive `idx` values from 0.  (Without
the no-repeat proviso the exactly-once property fails, see the
counterexample: a group listing the same index twice covers it twice.) -/
theorem refiner_merge_invariants (clusters : List RCluster) (groups : List OGroup)
    (hkeys : ((buildByIdx clusters).map (fun p => p.1)).Nodup)
    (hclean : ∀ c ∈ clusters, c.merged_member_idxs = none)
    (hgroups : ∀ g ∈ groups, (referencedInts g).Nodup) :
    (((refinePre clusters groups).map coverage).flatten).Perm
      ((buildByIdx clusters).map (fun p => p.1)) ∧
    (∀ c ∈ refinePre clusters groups, ∀ l, c.merged_member_idxs = some l →
      c.count = some ((l.map (memberCount (buildByIdx clusters))).sum)) ∧
    ((refineRun clusters groups).map (fun c => c.idx)) =
      (List.range (refinePre clusters groups).length).map (fun i => some (i : Int)) := by
  obtain ⟨i1, i2, i3, _, i5⟩ := foldStep_inv (buildByIdx clusters) groups ⟨[], []⟩
    hgroups (by simp) (by simp) (by simp) (by simp)
  rw [show List.foldl (stepGroup (buildByIdx clusters)) ⟨[], []⟩ groups =
    refineMergeAcc clusters groups from rfl] at i1 i2 i3 i5
  have hpassCov : ∀ k ∈ sortInts ((dictKeys (buildByIdx clusters)).filter
      (fun k => decide (k ∉ (refineMergeAcc clusters groups).used))),
      coverage ((dictFind (buildByIdx clusters) k).getD unreachableCluster) = [k] := by
    intro k hk
    have hk2 : k ∈ (buildByIdx clusters).map (fun p => p.1) := by
      have := ((sortByLe_perm _ _).mem_iff).mp hk
      exact List.mem_dedup.mp (List.mem_filter.mp this).1
    obtain ⟨c, hc, hidx, hmmi⟩ := dictFind_props clusters k hk2 hclean
    rw [hc]
    simp [coverage, hmmi, hidx]
  refine ⟨?_, ?_, ?_⟩
  · show (((refineMergeAcc clusters groups).merged ++ _).map coverage).flatten.Perm _
    rw [List.map_append, List.flatten_append, List.map_map]
    have hpass : ((sortInts ((dictKeys (buildByIdx clusters)).filter
        (fun k => decide (k ∉ (refineMergeAcc clusters groups).used)))).map
        (coverage ∘ fun k => (dictFind (buildByIdx clusters) k).getD
          unreachableCluster)).flatten =
        sortInts ((dictKeys (buildByIdx clusters)).filter
          (fun k => decide (k ∉ (refineMergeAcc clusters groups).used))) :=
      flatten_map_singleton _ _ hpassCov
    rw [hpass]
    have hused : (refineMergeAcc clusters groups).used.Perm
        (((buildByIdx clusters).map (fun p => p.1)).filter
          (fun k => decide (k ∈ (refineMergeAcc clusters groups).used))) := by
      rw [List.perm_ext_iff_of_nodup i1 (hkeys.filter _)]
      intro a
      rw [List.mem_filter]
      constructor
      · intro ha
        exact ⟨i3 a ha, by simpa using ha⟩
      · intro ha
        simpa using ha.2
    have hdedup : dictKeys (buildByIdx clusters) =
        (buildByIdx clusters).map (fun p => p.1) := List.dedup_eq_self.mpr hkeys
    have hnotf : ((buildByIdx clusters).map (fun p => p.1)).filter
        (fun k => decide (k ∉ (refineMergeAcc clusters groups).used)) =
        ((buildByIdx clusters).map (fun p => p.1)).filter
          (fun k => !decide (k ∈ (refineMergeAcc clusters groups).used)) := by
      apply List.filter_congr
      intro a _
      simp [decide_not]
    have hR : (dictKeys (buildByIdx clusters)).filter
        (fun k => decide (k ∉ (refineMergeAcc clusters groups).used)) =
        ((buildByIdx clusters).map (fun p => p.1)).filter
          (fun k => !decide (k ∈ (refineMergeAcc clusters groups).used)) := by
      rw [hdedup, hnotf]
    have ha : ((((refineMergeAcc clusters groups).merged.map coverage).flatten) ++
        sortInts ((dictKeys (buildByIdx clusters)).filter
          (fun k => decide (k ∉ (refineMergeAcc clusters groups).used)))).Perm
        ((refineMergeAcc clusters groups).used ++
          ((buildByIdx clusters).map (fun p => p.1)).filter
            (fun k => !decide (k ∈ (refineMergeAcc clusters groups).used))) := by
      refine i2.append ?_
      rw [← hR]
      exact sortByLe_perm _ _
    exact ha.trans ((hused.append_right _).trans (List.filter_append_perm _ _))
  · intro c hc l hl
    rcases List.mem_append.mp hc with h | h
    · exact i5 c h l hl
    · obtain ⟨k, hk, hck⟩ := List.mem_map.mp h
      have hk2 : k ∈ (buildByIdx clusters).map (fun p => p.1) := by
        have := ((sortByLe_perm _ _).mem_iff).mp hk
        exact List.mem_dedup.mp (List.mem_filter.mp this).1
      obtain ⟨c2, hc2, _, hmmi⟩ := dictFind_props clusters k hk2 hclean
      rw [hc2] at hck
      simp only [Option.getD_some] at hck
      rw [← hck] at hl
      rw [hmmi] at hl
      cases hl
  · exact (renumberFrom_map_idx _ 0).trans (by rw [List.range_eq_range'])

/-- Three clusters with no preassigned indices (the shape the preprocessor
writes). -/
def wClusters : List RCluster :=
  [⟨none, none, some "com.example.A", some "boom 1", some 2, none⟩,
   ⟨none, none, some "com.example.A", some "boom 2", some 3, none⟩,
   ⟨none, none, some "com.example.B", some "other", some 5, none⟩]

/-- A mixed oracle grouping: one valid merge, one non-dict entry, one group
without a canonical index, one referencing an unknown index and one with a
non-integer member. -/
def wGroups : List OGroup :=
  [OGroup.group (some (PyNum.int 0)) [PyNum.int 0, PyNum.int 1],
   OGroup.notDict,
   OGroup.group none [PyNum.int 0],
   OGroup.group (some (PyNum.int 9)) [PyNum.int 7],
   OGroup.group (some (PyNum.int 2)) [PyNum.bad]]

/-- Witness for C1: on the concrete mixed grouping, the covered indices are a
permutation of the original key set. -/
theorem refiner_merge_invariants_witness :
    (((refinePre wClusters wGroups).map coverage).flatten).Perm
      ((buildByIdx wClusters).map (fun p => p.1)) :=
  (refiner_merge_invariants wClusters wGroups (by decide) (by decide) (by decide)).1

/-- A single input cluster of count 5. -/
def cexCluster : List RCluster :=
  [⟨none, none, some "com.example.A", some "boom", some 5, none⟩]

/-- An oracle group that repeats member index 0. -/
def cexDupGroups : List OGroup :=
  [OGroup.group (some (PyNum.int 0)) [PyNum.int 0, PyNum.int 0]]

/-- C1, counterexample: when an oracle group lists the same index twice, the
refiner does not deduplicate within the group — index 0 is covered twice in
`merged_member_idxs` (so it does not appear "exactly once"), and the merged
count double-counts the cluster (10 instead of 5). -/
theorem refiner_exactly_once_counterexample :
    (((refinePre cexCluster cexDupGroups).map coverage).flatten) = [0, 0] ∧
    ¬ ((((refinePre cexCluster cexDupGroups).map coverage).flatten).Perm [(0 : Int)]) ∧
    (refineRun cexCluster cexDupGroups).map (fun c => c.count) = [some 10] := by
  refine ⟨by decide, by decide, by decide⟩

/-- A group the loop necessarily skips without touching the state, whatever
the `used` set currently is: a non-dict entry, a missing canonical index, a
failing `int` conversion, or a member list none of whose entries resolves to
a known cluster key (this covers the empty member list). -/
def groupInvalid (byIdx : List (Int × RCluster)) : OGroup → Bool
  | .notDict => true
  | .group none _ => true
  | .group (some .bad) _ => true
  | .group (some (.int _)) members =>
    match intList members with
    | none => true
    | some ms0 => ms0.all (fun k => decide (k ∉ byIdx.map (fun p => p.1)))

theorem stepGroup_invalid (byIdx : List (Int × RCluster)) (acc : MergeAcc) (g : OGroup)
    (h : groupInvalid byIdx g = true) : stepGroup byIdx acc g = acc := by
  rcases g with _ | ⟨canon, members⟩
  · rfl
  rcases canon with _ | cv
  · rfl
  rcases cv with cn | _
  · rcases hint : intList members with _ | ms0
    · simp [stepGroup, hint]
    · have hall : ∀ k ∈ ms0, k ∉ byIdx.map (fun p => p.1) := by
        simp only [groupInvalid, hint] at h
        intro k hk
        have := List.all_eq_true.mp h k hk
        simpa using this
      have hfil : ms0.filter (fun k =>
          decide (k ∈ byIdx.map (fun p => p.1) ∧ k ∉ acc.used)) = [] := by
        rw [List.filter_eq_nil_iff]
        intro k hk
        simp only [decide_eq_true_eq, not_and]
        intro hmem
        exact absurd hmem (hall k hk)
      simp only [stepGroup, hint]
      rw [dif_pos hfil]
  · rfl

theorem foldl_invalid (byIdx : List (Int × RCluster)) (groups : List OGroup)
    (h : ∀ g ∈ groups, groupInvalid byIdx g = true) :
    ∀ acc, groups.foldl (stepGroup byIdx) acc = acc := by
  induction groups with
  | nil => intro acc; rfl
  | cons g rest ih =>
    intro acc
    simp only [List.foldl_cons, stepGroup_invalid byIdx acc g (h g (by simp))]
    exact ih (fun g2 hg2 => h g2 (by simp [hg2])) acc

theorem stepGroup_used (byIdx : List (Int × RCluster)) (acc : MergeAcc) (g : OGroup) :
    ∀ k ∈ (stepGroup byIdx acc g).used, k ∈ acc.used ∨ k ∈ referencedInts g := by
  rcases g with _ | ⟨canon, members⟩
  · exact fun k hk => Or.inl hk
  rcases canon with _ | cv
  · exact fun k hk => Or.inl hk
  rcases cv with cn | _
  · rcases hint : intList members with _ | ms0
    · simp only [stepGroup, hint]
      exact fun k hk => Or.inl hk
    · simp only [stepGroup, hint]
      by_cases hms : ms0.filter (fun k =>
          decide (k ∈ byIdx.map (fun p => p.1) ∧ k ∉ acc.used)) = []
      · rw [dif_pos hms]
        exact fun k hk => Or.inl hk
      · rw [dif_neg hms]
        intro k hk
        rcases List.mem_append.mp hk with h | h
        · exact Or.inl h
        · right
          simp only [referencedInts, hint]
          exact List.mem_of_mem_filter h
  · exact fun k hk => Or.inl hk

theorem foldStep_used (byIdx : List (Int × RCluster)) (groups : List OGroup)
    (acc : MergeAcc) :
    ∀ k ∈ (groups.foldl (stepGroup byIdx) acc).used,
      k ∈ acc.used ∨ ∃ g ∈ groups, k ∈ referencedInts g := by
  induction groups generalizing acc with
  | nil => exact fun k hk => Or.inl hk
  | cons g rest ih =>
    intro k hk
    simp only [List.foldl_cons] at hk
    rcases ih (stepGroup byIdx acc g) k hk with h | h
    · rcases stepGroup_used byIdx acc g k h with h2 | h2
      · exact Or.inl h2
      · exact Or.inr ⟨g, by simp, h2⟩
    · obtain ⟨g2, hg2, hk2⟩ := h
      exact Or.inr ⟨g2, by simp [hg2], hk2⟩

/-- C6 (amended): groups the loop cannot use — non-dicts, groups without a
usable canonical index, groups whose member conversion raises, and groups
none of whose members resolves (including empty member lists) — are skipped
without touching the result, so an all-malformed grouping degrades to the
identity refinement; and every original index never referenced by a
structurally valid group passes through to the output unmerged, carrying its
own index and no `merged_member_idxs` key.  (A group that references *some*
already-consumed indices is, however, not rejected as a whole: the consumed
indices are dropped and the remnant still merges — see the counterexample.)
The Lean embedding is total, so no such input aborts the refinement. -/
theorem refiner_malformed_policy (clusters : List RCluster) (groups : List OGroup)
    (hclean : ∀ c ∈ clusters, c.merged_member_idxs = none) :
    ((∀ g ∈ groups, groupInvalid (buildByIdx clusters) g = true) →
      refineRun clusters groups = refineRun clusters []) ∧
    (∀ k ∈ (buildByIdx clusters).map (fun p => p.1),
      (∀ g ∈ groups, k ∉ referencedInts g) →
      ∃ c, dictFind (buildByIdx clusters) k = some c ∧ c ∈ refinePre clusters groups ∧
        c.merged_member_idxs = none ∧ c.idx = some k) := by
  constructor
  · intro hinv
    have hfold : refineMergeAcc clusters groups = refineMergeAcc clusters [] := by
      show groups.foldl (stepGroup (buildByIdx clusters)) ⟨[], []⟩ = _
      rw [foldl_invalid (buildByIdx clusters) groups hinv ⟨[], []⟩]
      rfl
    unfold refineRun refinePre
    rw [hfold]
  · intro k hk hnoref
    have hnot : k ∉ (refineMergeAcc clusters groups).used := by
      intro hused
      rcases foldStep_used (buildByIdx clusters) groups ⟨[], []⟩ k hused with h | h
      · simp at h
      · obtain ⟨g, hg, hkg⟩ := h
        exact hnoref g hg hkg
    exact mem_refinePre_passthrough clusters groups k hk hclean hnot

/-- Witness for C6: applying the policy theorem to the concrete mixed
grouping, key 2 — never referenced by a structurally valid group — passes
through unmerged. -/
theorem refiner_malformed_policy_witness :
    ∃ c, dictFind (buildByIdx wClusters) 2 = some c ∧
      c ∈ refinePre wClusters wGroups ∧
      c.merged_member_idxs = none ∧ c.idx = some 2 :=
  (refiner_malformed_policy wClusters wGroups (by decide)).2 2 (by decide) (by decide)

/-- Three clusters for the overlapping-groups counterexample. -/
def ovClusters : List RCluster :=
  [⟨none, none, some "com.example.A", some "m0", some 1, none⟩,
   ⟨none, none, some "com.example.A", some "m1", some 2, none⟩,
   ⟨none, none, some "com.example.A", some "m2", some 4, none⟩]

/-- Two groups where the second references index 1, already consumed by the
first. -/
def ovGroups : List OGroup :=
  [OGroup.group (some (PyNum.int 0)) [PyNum.int 0, PyNum.int 1],
   OGroup.group (some (PyNum.int 1)) [PyNum.int 1, PyNum.int 2]]

/-- C6, counterexample: a group referencing an index already consumed by an
earlier group is not rejected as a whole.  The second group loses index 1 but
still merges the remainder: the output’s second cluster carries
`merged_member_idxs = [2]` (with the canonical fields copied from cluster 1),
instead of cluster 2 passing through unmerged with no `merged_member_idxs`
key as the claim requires. -/
theorem refiner_overlap_counterexample :
    (refineRun ovClusters ovGroups).map
      (fun c => (c.idx, c.merged_member_idxs, c.count)) =
      [(some 0, some [0, 1], some 3), (some 1, some [2], some 4)] := by
  decide

/-- Witness for C3: the two example messages differ only in an id, so they
normalise identically and receive the same fingerprint. -/
theorem fingerprint_digit_invariant_witness :
    make_cluster_signature (some "com.example.A") (some "Failed to load id 123") =
      make_cluster_signature (some "com.example.A") (some "Failed to load id 456") :=
  (fingerprint_digit_invariant (some "com.example.A") "Failed to load id 123"
    "Failed to load id 456").2.2 (by decide)

/-! ## Planner normalisation (`plan_actions` in `agents/llm_orchestrator.py`)

`ask_json` is declared to return a parsed JSON value; the normalisation step
receives it as `out`.  Attribute access (`out.get`, `a.get`) on a non-object
raises `AttributeError`, which the model signals through `Except`. -/

/-- A parsed JSON value.  The numeric payloads relevant to the claims are
integral; a fractional number would be carried just as opaquely. -/
inductive JVal where
  | null
  | bool (b : Bool)
  | num (n : Int)
  | str (s : String)
  | arr (items : List JVal)
  | obj (entries : List (String × JVal))

/-- Python `d.get(k)` on a JSON object’s entry list; with duplicate keys the
last binding wins, as in `json.loads`. -/
def dictGet (entries : List (String × JVal)) (k : String) : Option JVal :=
  ((entries.reverse).find? (fun p => p.1 = k)).map (fun p => p.2)

/-- Python truthiness of a JSON value (`bool(x)`). -/
def pyTruthy : JVal → Bool
  | .null => false
  | .bool b => b
  | .num n => decide (n ≠ 0)
  | .str s => decide (s ≠ "")
  | .arr [] => false
  | .arr (_ :: _) => true
  | .obj [] => false
  | .obj (_ :: _) => true

/-- One normalized action of the orchestrator plan.  A parameter field is
`some v` when the key is attached to this agent’s dictionary (its value `v`
is taken from the oracle unvalidated, the documented default when absent). -/
structure NAction where
  agent : String
  run : Bool
  cluster_indices : Option JVal := none
  for_labels : Option JVal := none
  min_count : Option JVal := none

/-- The normalized plan `plan_actions` returns. -/
structure NPlan where
  actions : List NAction
  global_policy : JVal
  reason : JVal

/-- The hard-coded action list substituted when the oracle response has no
usable `actions` list (`not isinstance(actions, list) or len(actions) == 0`). -/
def defaultActions : List JVal :=
  [.obj [("agent", .str "JiraDrafts"), ("run", .bool false),
         ("cluster_indices", .arr [])],
   .obj [("agent", .str "FilterSuggestions"), ("run", .bool false),
         ("for_labels", .arr [.str "timeout", .str "external_service", .str "noise"]),
         ("min_count", .null)],
   .obj [("agent", .str "ConfluenceDraft"), ("run", .bool false)]]

/-- One iteration of the normalisation loop: unknown agent names produce no
action, a missing `run` key defaults to `False` before `bool()` is applied,
and missing parameters take their documented defaults.  A non-dict list item
raises `AttributeError` at `a.get("agent")`. -/
def normalizeAction : JVal → Except String (Option NAction)
  | .obj e =>
    match dictGet e "agent" with
    | some (.str s) =>
      if s = "JiraDrafts" then
        .ok (some { agent := "JiraDrafts"
                    run := pyTruthy ((dictGet e "run").getD (.bool false))
                    cluster_indices := some ((dictGet e "cluster_indices").getD (.arr [])) })
      else if s = "FilterSuggestions" then
        .ok (some { agent := "FilterSuggestions"
                    run := pyTruthy ((dictGet e "run").getD (.bool false))
                    for_labels := some ((dictGet e "for_labels").getD
                      (.arr [.str "timeout", .str "external_service", .str "noise"]))
                    min_count := some ((dictGet e "min_count").getD .null) })
      else if s = "ConfluenceDraft" then
        .ok (some { agent := "ConfluenceDraft"
                    run := pyTruthy ((dictGet e "run").getD (.bool false)) })
      else .ok none
    | _ => .ok none
  | _ => .error "AttributeError"

/-- The normalisation loop over the action list. -/
def normLoop : List JVal → Except String (List NAction)
  | [] => .ok []
  | a :: rest => do
    let r ← normalizeAction a
    let rs ← normLoop rest
    match r with
    | some act => .ok (act :: rs)
    | none => .ok rs

/-- Embedding of the normalisation phase of `plan_actions`
(`agents/llm_orchestrator.py`, from `out = ask_json(...)` to the returned
plan): substitute the default action list when `actions` is missing, not a
list, or empty, then normalize item by item; `reason` and `global_policy`
are taken with their literal defaults. -/
def planActionsNorm (out : JVal) : Except String NPlan :=
  match out with
  | .obj entries => do
    let actions :=
      match dictGet entries "actions" with
      | some (.arr []) => defaultActions
      | some (.arr l) => l
      | _ => defaultActions
    let normalized ← normLoop actions
    .ok { actions := normalized
          global_policy := (dictGet entries "global_policy").getD (.obj [])
          reason := (dictGet entries "reason").getD (.str "no reason provided") }
  | _ => .error "AttributeError"

theorem normalizeAction_obj (e2 : List (String × JVal)) :
    ∃ r, normalizeAction (.obj e2) = .ok r ∧
      ∀ act, r = some act → act.agent = "JiraDrafts" ∨ act.agent = "FilterSuggestions" ∨
        act.agent = "ConfluenceDraft" := by
  cases hag : dictGet e2 "agent" with
  | none => exact ⟨none, by simp [normalizeAction, hag], by intro act h; cases h⟩
  | some v =>
    cases v with
    | str s =>
      by_cases h1 : s = "JiraDrafts"
      · refine ⟨some (⟨"JiraDrafts", pyTruthy ((dictGet e2 "run").getD (.bool false)),
            some ((dictGet e2 "cluster_indices").getD (.arr [])), none, none⟩ : NAction),
          by simp [normalizeAction, hag, h1], ?_⟩
        intro act h
        injection h with h2
        rw [← h2]
        exact Or.inl rfl
      · by_cases h2 : s = "FilterSuggestions"
        · refine ⟨some (⟨"FilterSuggestions", pyTruthy ((dictGet e2 "run").getD (.bool false)),
              none, some ((dictGet e2 "for_labels").getD
                (.arr [.str "timeout", .str "external_service", .str "noise"])),
              some ((dictGet e2 "min_count").getD .null)⟩ : NAction),
            by simp [normalizeAction, hag, h1, h2], ?_⟩
          intro act h
          injection h with h3
          rw [← h3]
          exact Or.inr (Or.inl rfl)
        · by_cases h3 : s = "ConfluenceDraft"
          · refine ⟨some (⟨"ConfluenceDraft", pyTruthy ((dictGet e2 "run").getD (.bool false)),
                none, none, none⟩ : NAction),
              by simp [normalizeAction, hag, h1, h2, h3], ?_⟩
            intro act h
            injection h with h4
            rw [← h4]
            exact Or.inr (Or.inr rfl)
          · exact ⟨none, by simp [normalizeAction, hag, h1, h2, h3], by intro act h; cases h⟩
    | null => exact ⟨none, by simp [normalizeAction, hag], by intro act h; cases h⟩
    | bool b => exact ⟨none, by simp [normalizeAction, hag], by intro act h; cases h⟩
    | num n => exact ⟨none, by simp [normalizeAction, hag], by intro act h; cases h⟩
    | arr l => exact ⟨none, by simp [normalizeAction, hag], by intro act h; cases h⟩
    | obj l => exact ⟨none, by simp [normalizeAction, hag], by intro act h; cases h⟩

theorem normLoop_ok (items : List JVal) (h : ∀ a ∈ items, ∃ e2, a = .obj e2) :
    ∃ acts, normLoop items = .ok acts ∧
      ∀ act ∈ acts, act.agent = "JiraDrafts" ∨ act.agent = "FilterSuggestions" ∨
        act.agent = "ConfluenceDraft" := by
  induction items with
  | nil => exact ⟨[], rfl, by intro act h2; cases h2⟩
  | cons a rest ih =>
    obtain ⟨e2, rfl⟩ := h a (by simp)
    obtain ⟨r, hr, hragent⟩ := normalizeAction_obj e2
    obtain ⟨acts, hacts, hagents⟩ := ih (fun x hx => h x (by simp [hx]))
    cases r with
    | none => exact ⟨acts, by rw [normLoop, hr, hacts]; rfl, hagents⟩
    | some act =>
      refine ⟨act :: acts, by rw [normLoop, hr, hacts]; rfl, ?_⟩
      intro act2 h2
      rcases List.mem_cons.mp h2 with heq | hmem
      · subst heq
        exact hragent act2 rfl
      · exact hagents act2 hmem

/-- C7 (amended): the planner substitutes the all-`run=false` default plan
exactly when the response’s `actions` entry is missing, not a list, or an
empty list; for a response whose `actions` is a list of dictionaries the
normalisation never raises and every returned action bears one of the three
known agent names (unknown names are dropped — possibly leaving an *empty*
action list rather than the default plan, see the counterexample); a missing
`run` flag defaults to `false`, and missing `cluster_indices`, `for_labels`
and `min_count` parameters are filled with their documented defaults.  A
non-dict response, or a non-dict item inside a non-empty `actions` list,
raises `AttributeError` instead of being handled. -/
theorem planner_normalisation (entries : List (String × JVal)) :
    ((∀ l, dictGet entries "actions" = some (.arr l) → l = []) →
      (planActionsNorm (.obj entries)).map
        (fun p => p.actions.map (fun a => (a.agent, a.run))) =
        .ok [("JiraDrafts", false), ("FilterSuggestions", false),
             ("ConfluenceDraft", false)]) ∧
    (∀ items, dictGet entries "actions" = some (.arr items) →
      (∀ a ∈ items, ∃ e2, a = .obj e2) →
      ∃ p, planActionsNorm (.obj entries) = .ok p ∧
        ∀ act ∈ p.actions, act.agent = "JiraDrafts" ∨ act.agent = "FilterSuggestions" ∨
          act.agent = "ConfluenceDraft") ∧
    (∀ e2, dictGet e2 "agent" = some (.str "JiraDrafts") → dictGet e2 "run" = none →
      dictGet e2 "cluster_indices" = none →
      normalizeAction (.obj e2) =
        .ok (some (⟨"JiraDrafts", false, some (.arr []), none, none⟩ : NAction))) ∧
    (∀ e2, dictGet e2 "agent" = some (.str "FilterSuggestions") → dictGet e2 "run" = none →
      dictGet e2 "for_labels" = none → dictGet e2 "min_count" = none →
      normalizeAction (.obj e2) =
        .ok (some (⟨"FilterSuggestions", false, none,
          some (.arr [.str "timeout", .str "external_service", .str "noise"]),
          some .null⟩ : NAction))) := by
  refine ⟨?_, ?_, ?_, ?_⟩
  · intro hdef
    cases hga : dictGet entries "actions" with
    | none => simp only [planActionsNorm, hga]; rfl
    | some v =>
      cases v with
      | arr l =>
        have hl : l = [] := hdef l hga
        subst hl
        simp only [planActionsNorm, hga]
        rfl
      | null => simp only [planActionsNorm, hga]; rfl
      | bool b => simp only [planActionsNorm, hga]; rfl
      | num n => simp only [planActionsNorm, hga]; rfl
      | str s => simp only [planActionsNorm, hga]; rfl
      | obj l => simp only [planActionsNorm, hga]; rfl
  · intro items hga hobj
    cases items with
    | nil =>
      obtain ⟨acts, hacts, hagents⟩ := normLoop_ok defaultActions (by
        intro a ha
        simp only [defaultActions, List.mem_cons, List.not_mem_nil, or_false] at ha
        rcases ha with h | h | h <;> exact ⟨_, h⟩)
      refine ⟨⟨acts, (dictGet entries "global_policy").getD (.obj []),
        (dictGet entries "reason").getD (.str "no reason provided")⟩, ?_, hagents⟩
      simp only [planActionsNorm, hga]
      rw [hacts]
      rfl
    | cons a0 rest =>
      obtain ⟨acts, hacts, hagents⟩ := normLoop_ok (a0 :: rest) hobj
      refine ⟨⟨acts, (dictGet entries "global_policy").getD (.obj []),
        (dictGet entries "reason").getD (.str "no reason provided")⟩, ?_, hagents⟩
      simp only [planActionsNorm, hga]
      rw [hacts]
      rfl
  · intro e2 hag hrun hci
    simp [normalizeAction, hag, hrun, hci, pyTruthy]
  · intro e2 hag hrun hfl hmc
    simp [normalizeAction, hag, hrun, hfl, hmc, pyTruthy]

/-- An oracle response whose `actions` list names only an unknown agent. -/
def bogusResp : JVal :=
  .obj [("actions", .arr [.obj [("agent", .str "Bogus"), ("run", .bool true)]])]

/-- An oracle response whose `actions` list contains a non-dict item. -/
def nonDictItemResp : JVal := .obj [("actions", .arr [.num 7])]

/-- C7, counterexample: a non-empty `actions` list containing only unknown
agent names yields a plan with an *empty* actions list, not the default plan
with three `run=false` actions; and a non-dict item in a non-empty `actions`
list raises `AttributeError` instead of being normalized away. -/
theorem planner_normalisation_counterexample :
    (planActionsNorm bogusResp).map (fun p => p.actions.length) = .ok 0 ∧
    planActionsNorm nonDictItemResp = .error "AttributeError" := by
  exact ⟨rfl, rfl⟩

/-- Witness for C7: a response without an `actions` entry gets the default
all-false plan, and a `JiraDrafts` item without `run` or `cluster_indices`
keys normalizes to `run = false` with an empty index list. -/
theorem planner_normalisation_witness :
    (planActionsNorm (.obj [("reason", .str "r")])).map
      (fun p => p.actions.map (fun a => (a.agent, a.run))) =
      .ok [("JiraDrafts", false), ("FilterSuggestions", false),
           ("ConfluenceDraft", false)] ∧
    normalizeAction (.obj [("agent", .str "JiraDrafts")]) =
      .ok (some (⟨"JiraDrafts", false, some (.arr []), none, none⟩ : NAction)) :=
  ⟨(planner_normalisation [("reason", .str "r")]).1
      (by intro l h; simp [dictGet] at h),
   (planner_normalisation []).2.2.1 [("agent", .str "JiraDrafts")] rfl rfl rfl⟩

/-! ## Feedback annotation in `plan_actions` (`agents/llm_orchestrator.py`,
lines 130-146)

Before calling the oracle, `plan_actions` builds `fb_by_sig` from the
feedback ledger — a dict assignment per entry, so for a repeated fingerprint
the entry latest in the ledger wins — and attaches
`{"decision": ..., "reason": ...}` to each compact cluster whose signature
has an entry. -/

/-- A ledger entry as `plan_actions` reads it (`fb.get("signature")`,
`fb.get("decision")`, `fb.get("reason")`); any other keys are ignored. -/
structure FbRecord where
  signature : Option String
  decision : Option String
  reason : Option String
deriving DecidableEq, Repr

/-- The `{"decision", "reason"}` annotation value. -/
structure FbAnnot where
  decision : Option String
  reason : Option String
deriving DecidableEq, Repr

/-- One compact cluster of `_compact_clusters`, plus the `feedback` key the
annotation step may add. -/
structure CompactCluster where
  idx : Option Int
  signature : Option String
  service : Option String
  label : Option String
  priority : Option String
  severity : Option String
  confidence : Option ℚ
  count : Option Int
  java_class : Option String
  message : Option String
  feedback : Option FbAnnot := none
deriving DecidableEq, Repr

/-- Embedding of `_compact_clusters` (`agents/llm_orchestrator.py`). -/
def _compact_clusters (triaged_items : List TriagedItem) : List CompactCluster :=
  triaged_items.map (fun it =>
    { idx := it.idx
      signature := it.signature
      service := it.service
      label := (it.triage.getD emptyTriage).label
      priority := (it.triage.getD emptyTriage).priority
      severity := (it.triage.getD emptyTriage).severity
      confidence := (it.triage.getD emptyTriage).confidence
      count := it.count
      java_class := it.java_class
      message := it.message })

/-- Assignment into the `fb_by_sig` dict: overwrite the binding in place or
append a new one. -/
def dictSetFb (m : List (String × FbAnnot)) (k : String) (v : FbAnnot) :
    List (String × FbAnnot) :=
  match m with
  | [] => [(k, v)]
  | (k0, v0) :: rest => if k0 = k then (k0, v) :: rest else (k0, v0) :: dictSetFb rest k v

/-- The `fb_by_sig` loop: entries with a falsy signature (`None` or `""`)
are skipped, later entries overwrite earlier ones. -/
def fbBySig (entries : List FbRecord) : List (String × FbAnnot) :=
  entries.foldl (fun m fb =>
    match fb.signature with
    | none => m
    | some s => if s = "" then m else dictSetFb m s ⟨fb.decision, fb.reason⟩) []

/-- Dict lookup in `fb_by_sig` (keys are unique by construction). -/
def lookupFb (m : List (String × FbAnnot)) (s : String) : Option FbAnnot :=
  match m with
  | [] => none
  | (k0, v) :: rest => if k0 = s then some v else lookupFb rest s

/-- Embedding of the annotation loop of `plan_actions`: when feedback is in
use, a cluster whose signature has a `fb_by_sig` binding gets it as its
`feedback` field. -/
def annotateClusters (use_feedback : Bool) (entries : List FbRecord)
    (cs : List CompactCluster) : List CompactCluster :=
  if use_feedback then
    cs.map (fun c =>
      match c.signature with
      | some s =>
        match lookupFb (fbBySig entries) s with
        | some v => { c with feedback := some v }
        | none => c
      | none => c)
  else cs

theorem lookupFb_dictSetFb (m : List (String × FbAnnot)) (k : String) (v : FbAnnot)
    (s : String) :
    lookupFb (dictSetFb m k v) s = if s = k then some v else lookupFb m s := by
  induction m with
  | nil =>
    by_cases h : s = k
    · simp [dictSetFb, lookupFb, h]
    · have hne : ¬ k = s := fun hh => h hh.symm
      simp [dictSetFb, lookupFb, h, hne]
  | cons p rest ih =>
    rcases p with ⟨k0, v0⟩
    by_cases h0 : k0 = k
    · subst h0
      by_cases h : s = k0
      · subst h
        simp [dictSetFb, lookupFb]
      · have hne : ¬ k0 = s := fun hh => h hh.symm
        simp [dictSetFb, lookupFb, h, hne]
    · by_cases h : k0 = s
      · subst h
        have hne : ¬ k0 = k := h0
        have hne2 : ¬ (k0 = k) := h0
        simp [dictSetFb, lookupFb, h0, fun hh : k0 = k => h0 hh]
      · simp [dictSetFb, lookupFb, h0, h, ih]

theorem fbBySig_append (entries : List FbRecord) (fb : FbRecord) :
    fbBySig (entries ++ [fb]) =
      (match fb.signature with
       | none => fbBySig entries
       | some s => if s = "" then fbBySig entries
          else dictSetFb (fbBySig entries) s ⟨fb.decision, fb.reason⟩) := by
  simp [fbBySig, List.foldl_append]

theorem fbBySig_lookup_last (entries : List FbRecord) (s : String) (hs : s ≠ "") :
    lookupFb (fbBySig entries) s =
      ((entries.reverse).find? (fun fb => fb.signature = some s)).map
        (fun fb => (⟨fb.decision, fb.reason⟩ : FbAnnot)) := by
  induction entries using List.reverseRecOn with
  | nil => simp [fbBySig, lookupFb]
  | append_singleton es fb ih =>
    have hrev : (es ++ [fb]).reverse = fb :: es.reverse := by
      rw [List.reverse_append]
      rfl
    rcases hsig : fb.signature with _ | s2
    · have hL : fbBySig (es ++ [fb]) = fbBySig es := by
        rw [fbBySig_append, hsig]
      have hd : (decide (fb.signature = some s)) = false := by simp [hsig]
      rw [hrev, hL]
      simp only [List.find?_cons, hd]
      exact ih
    · by_cases he : s2 = ""
      · subst he
        have hL : fbBySig (es ++ [fb]) = fbBySig es := by
          rw [fbBySig_append, hsig]
          simp
        have hd : (decide (fb.signature = some s)) = false := by
          simp only [hsig, decide_eq_false_iff_not]
          intro h
          exact hs (Option.some.inj h).symm
        rw [hrev, hL]
        simp only [List.find?_cons, hd]
        exact ih
      · have hL : fbBySig (es ++ [fb]) =
            dictSetFb (fbBySig es) s2 ⟨fb.decision, fb.reason⟩ := by
          rw [fbBySig_append, hsig]
          simp [he]
        rw [hrev, hL, lookupFb_dictSetFb]
        by_cases hss : s = s2
        · subst hss
          have hd : (decide (fb.signature = some s)) = true := by simp [hsig]
          simp only [List.find?_cons, hd, if_pos rfl]
          rfl
        · have hd : (decide (fb.signature = some s)) = false := by
            simp only [hsig, decide_eq_false_iff_not]
            intro h
            exact hss (Option.some.inj h).symm
          simp only [List.find?_cons, hd, if_neg hss]
          exact ih

/-- C10: when the ledger holds several entries for the same fingerprint, the
entry appearing last in the ledger wins: with feedback enabled, a compact
cluster whose signature is `s` (non-empty) and whose last matching ledger
entry is `fb` is annotated with exactly the decision and reason. -/
theorem plan_feedback_last_wins (entries : List FbRecord) (cs : List CompactCluster)
    (c : CompactCluster) (hc : c ∈ cs) (s : String) (hsig : c.signature = some s)
    (hne : s ≠ "") (fb : FbRecord)
    (hlast : (entries.reverse).find? (fun e => e.signature = some s) = some fb) :
    { c with feedback := some ⟨fb.decision, fb.reason⟩ } ∈
      annotateClusters true entries cs := by
  unfold annotateClusters
  rw [if_pos rfl]
  refine List.mem_map.mpr ⟨c, hc, ?_⟩
  have hlk : lookupFb (fbBySig entries) s = some ⟨fb.decision, fb.reason⟩ := by
    rw [fbBySig_lookup_last entries s hne, hlast]
    rfl
  rw [hsig]
  simp only [hlk]

/-- A two-entry ledger for one fingerprint: first approved, later rejected. -/
def demoLedger : List FbRecord :=
  [⟨some "sigX", some "approved", some "useful"⟩,
   ⟨some "sigX", some "rejected", some "noise"⟩]

/-- A compact cluster carrying that fingerprint. -/
def demoCompact : CompactCluster :=
  { idx := some 0, signature := some "sigX", service := some "svc"
    label := some "internal_error", priority := some "high", severity := some "high"
    confidence := some (9/10), count := some 3
    java_class := some "com.example.A", message := some "boom" }

/-- Witness for C10: with an `approved` entry followed by a `rejected` entry
for the same fingerprint, the cluster is annotated with the later
(`rejected`) decision. -/
theorem plan_feedback_last_wins_witness :
    { demoCompact with feedback := some ⟨some "rejected", some "noise"⟩ } ∈
      annotateClusters true demoLedger [demoCompact] :=
  plan_feedback_last_wins demoLedger [demoCompact] demoCompact (by simp) "sigX" rfl
    (by decide) ⟨some "sigX", some "rejected", some "noise"⟩ (by decide)

/-! ## Executor (`execute_actions` in `tools/executor.py` and
`agents/executor.py`)

The plan’s actions are dispatched to the three agents.  The agent calls
(together with their result-enrichment wrappers, which run inside the same
`try`) are modelled as behaviour functions returning `Except`: `.error e`
models a raised exception with message `e`.  The `tools` variant catches
every exception and appends `{"agent": ..., "error": str(e)}` to its error
list; the `agents` variant has no `try`/`except`, so an exception propagates
and aborts the remaining actions (its interactive review tail is modelled in
the review section). -/

/-- One action dictionary as the executors read it: `act.get("agent")`,
`act.get("run", False)` and the per-agent parameter keys. -/
structure EAction where
  agent : Option String
  run : Option JVal := none
  cluster_indices : Option JVal := none
  for_labels : Option JVal := none
  min_count : Option JVal := none
  include_sections : Option JVal := none

/-- Assignment into the string-keyed `results` dict. -/
def dictSetRes (m : List (String × JVal)) (k : String) (v : JVal) :
    List (String × JVal) :=
  match m with
  | [] => [(k, v)]
  | (k0, v0) :: rest => if k0 = k then (k0, v) :: rest else (k0, v0) :: dictSetRes rest k v

/-- The agent behaviours seen by the `tools` executor: the Jira agent takes
the action’s `cluster_indices`, the other two take no action parameters. -/
structure AgentBehaviors where
  jira : Option JVal → Except String JVal
  filt : Except String JVal
  conf : Except String JVal

/-- Embedding of `bool(act.get("run", False))`. -/
def runFlag (act : EAction) : Bool := pyTruthy ((act.run).getD (.bool false))

/-- The results dict and errors list threaded through the loop of the
`tools` executor (the source stores the error list under the `"errors"` key
of the same dict after the loop; it is a separate field here). -/
structure ExecResult where
  results : List (String × JVal)
  errors : List (Option String × String)

/-- One loop iteration of `execute_actions` (`tools/executor.py`): skipped
when `run` is falsy, result recorded under the agent’s key on success, an
error entry appended when the call raises, and an `unknown_agent` entry for
unrecognised agent names. -/
def execStep (b : AgentBehaviors) (st : ExecResult) (act : EAction) : ExecResult :=
  if runFlag act then
    if act.agent = some "JIRA_AGENT" then
      match b.jira act.cluster_indices with
      | .ok v => { st with results := dictSetRes st.results "jira_drafts" v }
      | .error e => { st with errors := st.errors ++ [(act.agent, e)] }
    else if act.agent = some "FILTER_AGENT" then
      match b.filt with
      | .ok v => { st with results := dictSetRes st.results "filter_suggestions" v }
      | .error e => { st with errors := st.errors ++ [(act.agent, e)] }
    else if act.agent = some "CONFLUENCE_AGENT" then
      match b.conf with
      | .ok v => { st with results := dictSetRes st.results "confluence_draft" v }
      | .error e => { st with errors := st.errors ++ [(act.agent, e)] }
    else { st with errors := st.errors ++ [(act.agent, "unknown_agent")] }
  else st

/-- Embedding of `execute_actions` (`tools/executor.py`): fold the loop over
the plan’s actions, then merge the `jira_review.json` content (passed here as
the parsed file value) into the results when it is a dict. -/
def execute_actions_tools (b : AgentBehaviors) (actions : List EAction)
    (jira_review_file : Option JVal) : ExecResult :=
  let st := actions.foldl (execStep b) ⟨[], []⟩
  match jira_review_file with
  | some (.obj e) => { st with results := dictSetRes st.results "jira_review" (.obj e) }
  | _ => st

/-- The error entry a single action contributes, as a function of that action
and the behaviours alone. -/
def execErrSpec (b : AgentBehaviors) (act : EAction) : Option (Option String × String) :=
  if runFlag act then
    if act.agent = some "JIRA_AGENT" then
      match b.jira act.cluster_indices with
      | .ok _ => none
      | .error e => some (act.agent, e)
    else if act.agent = some "FILTER_AGENT" then
      match b.filt with
      | .ok _ => none
      | .error e => some (act.agent, e)
    else if act.agent = some "CONFLUENCE_AGENT" then
      match b.conf with
      | .ok _ => none
      | .error e => some (act.agent, e)
    else some (act.agent, "unknown_agent")
  else none

/-- The result entry a single action contributes on success. -/
def execResSpec (b : AgentBehaviors) (act : EAction) : Option (String × JVal) :=
  if runFlag act then
    if act.agent = some "JIRA_AGENT" then
      match b.jira act.cluster_indices with
      | .ok v => some ("jira_drafts", v)
      | .error _ => none
    else if act.agent = some "FILTER_AGENT" then
      match b.filt with
      | .ok v => some ("filter_suggestions", v)
      | .error _ => none
    else if act.agent = some "CONFLUENCE_AGENT" then
      match b.conf with
      | .ok v => some ("confluence_draft", v)
      | .error _ => none
    else none
  else none

/-- The agent behaviours seen by the `agents` executor, whose filter and
report agents receive action parameters. -/
structure AgentBehaviorsA where
  jira : Option JVal → Except String JVal
  filt : Option JVal → Option JVal → Except String JVal
  conf : Option JVal → Except String JVal

/-- One loop iteration of `execute_actions` (`agents/executor.py`): no
exception handling, so a raising agent aborts the whole loop; unknown agents
are only logged. -/
def execStepAgents (b : AgentBehaviorsA) (st : List (String × JVal) × Bool)
    (act : EAction) : Except String (List (String × JVal) × Bool) :=
  if runFlag act then
    if act.agent = some "JiraDrafts" then
      (b.jira act.cluster_indices).map (fun v => (dictSetRes st.1 "jira_drafts" v, true))
    else if act.agent = some "FilterSuggestions" then
      (b.filt act.for_labels act.min_count).map
        (fun v => (dictSetRes st.1 "filter_suggestions" v, st.2))
    else if act.agent = some "ConfluenceDraft" then
      (b.conf act.include_sections).map
        (fun v => (dictSetRes st.1 "confluence_draft" v, st.2))
    else .ok st
  else .ok st

/-- Embedding of the dispatch loop of `execute_actions`
(`agents/executor.py`); the boolean is the `jira_review_ran` flag. -/
def execute_actions_agents (b : AgentBehaviorsA) (actions : List EAction) :
    Except String (List (String × JVal) × Bool) :=
  actions.foldlM (execStepAgents b) ([], false)

theorem execStep_errors (b : AgentBehaviors) (st : ExecResult) (act : EAction) :
    (execStep b st act).errors = st.errors ++ (execErrSpec b act).toList := by
  unfold execStep execErrSpec
  by_cases hr : runFlag act <;>
    by_cases h1 : act.agent = some "JIRA_AGENT" <;>
    by_cases h2 : act.agent = some "FILTER_AGENT" <;>
    by_cases h3 : act.agent = some "CONFLUENCE_AGENT" <;>
    rcases hja : b.jira act.cluster_indices with v | e <;>
    rcases hf : b.filt with v2 | e2 <;>
    rcases hc : b.conf with v3 | e3 <;>
    simp_all

theorem exec_errors_fold (b : AgentBehaviors) (actions : List EAction) (st : ExecResult) :
    (actions.foldl (execStep b) st).errors = st.errors ++ actions.filterMap (execErrSpec b) := by
  induction actions generalizing st with
  | nil => simp
  | cons act rest ih =>
    simp only [List.foldl_cons, List.filterMap_cons]
    rw [ih, execStep_errors]
    cases h : execErrSpec b act <;> simp [h]

theorem dictSetRes_mem_self (m : List (String × JVal)) (k : String) (v : JVal) :
    (k, v) ∈ dictSetRes m k v := by
  induction m with
  | nil => simp [dictSetRes]
  | cons p rest ih =>
    rcases p with ⟨k0, v0⟩
    by_cases h : k0 = k
    · subst h
      simp [dictSetRes]
    · simp only [dictSetRes, if_neg h]
      exact List.mem_cons_of_mem _ ih

theorem dictSetRes_mem_other (m : List (String × JVal)) (k : String) (v : JVal)
    (k2 : String) (v2 : JVal) (h : (k, v) ∈ m) (hne : k ≠ k2) :
    (k, v) ∈ dictSetRes m k2 v2 := by
  induction m with
  | nil => cases h
  | cons p rest ih =>
    rcases p with ⟨k0, v0⟩
    by_cases hk : k0 = k2
    · subst hk
      simp only [dictSetRes, if_pos rfl]
      rcases List.mem_cons.mp h with heq | hmem
      · cases heq
        exact absurd rfl hne
      · exact List.mem_cons_of_mem _ hmem
    · simp only [dictSetRes, if_neg hk]
      rcases List.mem_cons.mp h with heq | hmem
      · rw [heq]
        exact List.mem_cons_self _ _
      · exact List.mem_cons_of_mem _ (ih hmem)

theorem dictSetRes_key_preserved (m : List (String × JVal)) (k : String) (v : JVal)
    (k2 : String) (v2 : JVal) (h : (k, v) ∈ m) :
    ∃ v3, (k, v3) ∈ dictSetRes m k2 v2 := by
  by_cases hk : k = k2
  · subst hk
    exact ⟨v2, dictSetRes_mem_self m k v2⟩
  · exact ⟨v, dictSetRes_mem_other m k v k2 v2 h hk⟩

theorem execStep_key_preserved (b : AgentBehaviors) (st : ExecResult) (act : EAction)
    (k : String) (v : JVal) (h : (k, v) ∈ st.results) :
    ∃ v2, (k, v2) ∈ (execStep b st act).results := by
  unfold execStep
  by_cases hr : runFlag act <;>
    by_cases h1 : act.agent = some "JIRA_AGENT" <;>
    by_cases h2 : act.agent = some "FILTER_AGENT" <;>
    by_cases h3 : act.agent = some "CONFLUENCE_AGENT" <;>
    rcases hja : b.jira act.cluster_indices with v4 | e <;>
    rcases hf : b.filt with v5 | e2 <;>
    rcases hc : b.conf with v6 | e3 <;>
    simp_all <;>
    first
      | exact ⟨v, h⟩
      | exact dictSetRes_key_preserved _ _ _ _ _ h

theorem execFold_key_preserved (b : AgentBehaviors) (actions : List EAction)
    (st : ExecResult) (k : String) (v : JVal) (h : (k, v) ∈ st.results) :
    ∃ v2, (k, v2) ∈ (actions.foldl (execStep b) st).results := by
  induction actions generalizing st v with
  | nil => exact ⟨v, h⟩
  | cons act rest ih =>
    obtain ⟨v2, hv2⟩ := execStep_key_preserved b st act k v h
    exact ih _ v2 hv2

theorem execStep_spec_mem (b : AgentBehaviors) (st : ExecResult) (act : EAction)
    (k : String) (v : JVal) (h : execResSpec b act = some (k, v)) :
    (k, v) ∈ (execStep b st act).results := by
  unfold execResSpec at h
  unfold execStep
  by_cases hr : runFlag act <;>
    by_cases h1 : act.agent = some "JIRA_AGENT" <;>
    by_cases h2 : act.agent = some "FILTER_AGENT" <;>
    by_cases h3 : act.agent = some "CONFLUENCE_AGENT" <;>
    rcases hja : b.jira act.cluster_indices with v4 | e <;>
    rcases hf : b.filt with v5 | e2 <;>
    rcases hc : b.conf with v6 | e3 <;>
    simp_all <;>
    (try obtain ⟨hk, hv⟩ := h) <;>
    (try subst hk) <;>
    (try subst hv) <;>
    exact dictSetRes_mem_self _ _ _

/-- C8 (amended): in the `tools/executor.py` executor, the error list is
exactly the per-action error entries — a `run=true` action whose agent call
raises contributes `{"agent", str(e)}`, a `run=true` action with an unknown
agent contributes an `unknown_agent` entry, and `run=false` actions
contribute nothing — and one action’s failure does not prevent any other
action from being executed: every `run=true` known-agent action whose call
succeeds leaves its result key in the results dict, whatever the other
actions did.  (In the `agents/executor.py` variant there is no handler and
an exception aborts the remaining actions — see the counterexample.) -/
theorem executor_error_isolation (b : AgentBehaviors) (actions : List EAction)
    (jira_review_file : Option JVal) :
    (execute_actions_tools b actions jira_review_file).errors =
      actions.filterMap (execErrSpec b) ∧
    (∀ act ∈ actions, ∀ k v, execResSpec b act = some (k, v) →
      ∃ v2, (k, v2) ∈ (execute_actions_tools b actions jira_review_file).results) := by
  constructor
  · show (match jira_review_file with
      | some (.obj e) => _
      | _ => _ : ExecResult).errors = _
    rcases jira_review_file with _ | f
    · exact exec_errors_fold b actions ⟨[], []⟩
    · rcases f with _ | _ | _ | _ | _ | e2
      · exact exec_errors_fold b actions ⟨[], []⟩
      · exact exec_errors_fold b actions ⟨[], []⟩
      · exact exec_errors_fold b actions ⟨[], []⟩
      · exact exec_errors_fold b actions ⟨[], []⟩
      · exact exec_errors_fold b actions ⟨[], []⟩
      · exact exec_errors_fold b actions ⟨[], []⟩
  · intro act hmem k v hspec
    have hfold : ∃ v2, (k, v2) ∈ (actions.foldl (execStep b) ⟨[], []⟩).results := by
      obtain ⟨pre, post, rfl⟩ := List.append_of_mem hmem
      rw [List.foldl_append, List.foldl_cons]
      exact execFold_key_preserved b post _ k v
        (execStep_spec_mem b _ act k v hspec)
    obtain ⟨v2, hv2⟩ := hfold
    rcases jira_review_file with _ | f
    · exact ⟨v2, hv2⟩
    · rcases f with _ | _ | _ | _ | _ | e2
      · exact ⟨v2, hv2⟩
      · exact ⟨v2, hv2⟩
      · exact ⟨v2, hv2⟩
      · exact ⟨v2, hv2⟩
      · exact ⟨v2, hv2⟩
      · exact dictSetRes_key_preserved _ _ _ _ _ hv2

/-- Behaviours where the Jira agent raises `"boom"` and the report agent
succeeds (`tools` agent names). -/
def boomB : AgentBehaviors :=
  ⟨fun _ => .error "boom", .ok (.str "f"), .ok (.str "c")⟩

/-- A `run=true` Jira action (`tools` name). -/
def boomActJira : EAction := ⟨some "JIRA_AGENT", some (.bool true), none, none, none, none⟩

/-- A `run=true` Confluence action (`tools` name). -/
def boomActConf : EAction :=
  ⟨some "CONFLUENCE_AGENT", some (.bool true), none, none, none, none⟩

/-- The same behaviours for the `agents` variant. -/
def boomBA : AgentBehaviorsA :=
  ⟨fun _ => .error "boom", fun _ _ => .ok (.str "f"), fun _ => .ok (.str "c")⟩

/-- A `run=true` Jira action (`agents` name). -/
def boomActJiraA : EAction := ⟨some "JiraDrafts", some (.bool true), none, none, none, none⟩

/-- A `run=true` Confluence action (`agents` name). -/
def boomActConfA : EAction :=
  ⟨some "ConfluenceDraft", some (.bool true), none, none, none, none⟩

/-- C8, counterexample: with a raising Jira agent followed by a succeeding
report agent, the `agents/executor.py` executor propagates the exception and
the report agent never runs — nothing is recorded in any errors list — while
the `tools/executor.py` executor records the error and still runs the report
agent. -/
theorem executor_agents_counterexample :
    execute_actions_agents boomBA [boomActJiraA, boomActConfA] = .error "boom" ∧
    (execute_actions_tools boomB [boomActJira, boomActConf] none).errors =
      [(some "JIRA_AGENT", "boom")] ∧
    (execute_actions_tools boomB [boomActJira, boomActConf] none).results =
      [("confluence_draft", .str "c")] := by
  exact ⟨rfl, rfl, rfl⟩

/-- Witness for C8: applying the isolation theorem to the concrete failing
plan, the report agent’s result key is present although the Jira agent
raised first. -/
theorem executor_error_isolation_witness :
    ∃ v2, ("confluence_draft", v2) ∈
      (execute_actions_tools boomB [boomActJira, boomActConf] none).results :=
  (executor_error_isolation boomB [boomActJira, boomActConf] none).2 boomActConf
    (List.mem_cons_of_mem _ (List.mem_cons_self _ _)) "confluence_draft" (.str "c") rfl

/-! ## Interactive review loop (`review_and_submit_jira_drafts` in
`agents/executor.py`; `tools/feedback_review.py` runs the same
approve/reject/skip-all loop without the submission step)

The blocking `input()` is modelled as a scripted decision list, per the
design note on the approval loop; each `input()` call consumes one entry.
Timestamps produced by `datetime.utcnow()` are threaded in as the `now`
parameter. -/

/-- The fields of `draft["jira"]` the loop reads. -/
structure JiraPart where
  summary : Option String
  service_name : Option String
  signature : Option String
  cluster_service_name : Option String
  cluster_label : Option String
deriving DecidableEq, Repr

/-- One Jira draft: its `jira` sub-dict (a missing key makes the loop raise
at `d.get(...)`) and `draft["cluster"]["signature"]`. -/
structure Draft where
  jira : Option JiraPart
  cluster_signature : Option String
deriving DecidableEq, Repr

/-- One ledger entry as `append_feedback` writes it; `label` is only present
on rejections. -/
structure FeedbackEntry where
  timestamp : String
  signature : Option String
  decision : String
  source : String
  summary : String
  service : String
  label : Option (Option String) := none
deriving DecidableEq, Repr

/-- ASCII lowering, the effect of `.lower()` on the console input. -/
def pyLower (s : String) : String := ⟨s.data.map Char.toLower⟩

/-- The three decisions of the review loop. -/
inductive Decision where
  | approve
  | reject
  | skipAll
deriving DecidableEq, Repr

/-- Classify one console line (`choice = input(...).strip().lower()`). -/
def parseChoice (s : String) : Option Decision :=
  let choice := pyLower (pyStrip s)
  if choice = "a" ∨ choice = "approve" then some .approve
  else if choice = "r" ∨ choice = "reject" then some .reject
  else if choice = "s" ∨ choice = "skip" ∨ choice = "skip all" then some .skipAll
  else none

/-- The inner `while True` prompt: consume script entries until one parses,
`none` when the script runs out (the source would block on `input()`). -/
def askDecision : List String → Option (Decision × List String)
  | [] => none
  | s :: rest =>
    match parseChoice s with
    | some d => some (d, rest)
    | none => askDecision rest

/-- Embedding of `d.get("summary") or "(no summary)"`. -/
def draftSummary (d : JiraPart) : String := pyOrStr d.summary "(no summary)"

/-- Embedding of `d.get("service_name") or d.get("cluster", {}).get("service_name") or
"(unknown service)"`. -/
def draftService (d : JiraPart) : String :=
  pyOrStr d.service_name (pyOrStr d.cluster_service_name "(unknown service)")

/-- Embedding of `draft.get("cluster", {}).get("signature") or d.get("signature")`. -/
def draftSignature (dr : Draft) (d : JiraPart) : Option String :=
  pyOrOpt dr.cluster_signature d.signature

/-- The entry an approval appends. -/
def approvedEntry (now : String) (sig : Option String) (summary service : String) :
    FeedbackEntry :=
  ⟨now, sig, "approved", "jira_review", summary, service, none⟩

/-- The entry a rejection appends (it also records the label). -/
def rejectedEntry (now : String) (sig : Option String) (summary service : String)
    (label : Option String) : FeedbackEntry :=
  ⟨now, sig, "rejected", "jira_review", summary, service, some label⟩

/-- The loop state: the feedback entries appended so far, the approved and
rejected draft indices, and the `skipped_all` flag. -/
structure ReviewState where
  ledger : List FeedbackEntry
  approved : List Nat
  rejected : List Nat
  skippedAll : Bool
deriving DecidableEq, Repr

/-- The three ways the loop can come out in the model. -/
inductive ReviewOut where
  | done (st : ReviewState) (restScript : List String)
  | blocked
  | raised (msg : String)
deriving DecidableEq, Repr

/-- The `for idx, draft in enumerate(drafts)` loop of
`review_and_submit_jira_drafts`: approve and reject each append exactly one
entry and move on, skip-all sets the flag and breaks. -/
def reviewLoop (now : String) : List (Nat × Draft) → List String → ReviewState → ReviewOut
  | [], script, st => .done st script
  | (idx, dr) :: rest, script, st =>
    match dr.jira with
    | none => .raised "AttributeError"
    | some d =>
      match askDecision script with
      | none => .blocked
      | some (dec, script2) =>
        match dec with
        | .approve =>
          reviewLoop now rest script2
            { st with
              ledger := st.ledger ++
                [approvedEntry now (draftSignature dr d) (draftSummary d) (draftService d)]
              approved := st.approved ++ [idx] }
        | .reject =>
          reviewLoop now rest script2
            { st with
              ledger := st.ledger ++
                [rejectedEntry now (draftSignature dr d) (draftSummary d) (draftService d)
                  d.cluster_label]
              rejected := st.rejected ++ [idx] }
        | .skipAll => .done { st with skippedAll := true } script2

/-- The dictionary `review_and_submit_jira_drafts` returns. -/
structure ReviewResult where
  approved : Nat
  rejected : Nat
  submitted : Nat
  skipped_all : Bool
deriving DecidableEq, Repr

/-- Placeholder for an out-of-range draft index (unreachable: the loop only
records indices produced by `enumerate`). -/
def defaultDraft : Draft := ⟨none, none⟩

/-- Embedding of `review_and_submit_jira_drafts` (`agents/executor.py`): run
the loop, then submit each approved draft to the ticket sink unless skip-all
was chosen.  The value is the returned count dictionary together with the
appended feedback entries and the drafts handed to the sink; `.ok none`
models the loop blocking on exhausted scripted input, `.error` a raised
exception. -/
def review_and_submit_jira_drafts (now : String) (drafts : List Draft)
    (script : List String) :
    Except String (Option (ReviewResult × List FeedbackEntry × List Draft)) :=
  if drafts.isEmpty then .ok (some (⟨0, 0, 0, false⟩, [], []))
  else
    match reviewLoop now drafts.enum script ⟨[], [], [], false⟩ with
    | .raised m => .error m
    | .blocked => .ok none
    | .done st _ =>
      let submittedDrafts :=
        if ¬ st.skippedAll ∧ st.approved ≠ [] then
          st.approved.map (fun i => drafts.getD i defaultDraft)
        else []
      .ok (some (⟨st.approved.length, st.rejected.length, submittedDrafts.length,
        st.skippedAll⟩, st.ledger, submittedDrafts))

/-- C5: on a 3-draft batch with the scripted decisions approve, reject,
skip-all, the loop appends exactly two feedback entries — an `approved` entry
carrying the first draft’s fingerprint and a `rejected` entry carrying the
second draft’s — terminates with the third draft unprocessed (no decision
recorded for it), reports one approval and one rejection, and submits
nothing to the ticket sink (skip-all cancels even the prior approval’s
submission, so zero tickets beyond the approved one are filed).  In general,
whatever the drafts and script, skip-all forces an empty submission list and
the reported `submitted` count always equals the number of drafts handed to
the sink, which is zero or the number of approved drafts. -/
theorem review_approve_reject_skip (now : String) (d0 d1 d2 : Draft)
    (j0 j1 j2 : JiraPart) (h0 : d0.jira = some j0) (h1 : d1.jira = some j1)
    (h2 : d2.jira = some j2) :
    review_and_submit_jira_drafts now [d0, d1, d2] ["a", "r", "s"] =
      .ok (some (⟨1, 1, 0, true⟩,
        [approvedEntry now (draftSignature d0 j0) (draftSummary j0) (draftService j0),
         rejectedEntry now (draftSignature d1 j1) (draftSummary j1) (draftService j1)
           j1.cluster_label],
        [])) ∧
    (∀ drafts script res,
      review_and_submit_jira_drafts now drafts script = .ok (some res) →
      (res.1.skipped_all = true → res.2.2 = []) ∧
      res.1.submitted = res.2.2.length ∧
      (res.2.2 = [] ∨ res.2.2.length = res.1.approved)) := by
  constructor
  · unfold review_and_submit_jira_drafts
    rw [if_neg (by simp)]
    have hloop : reviewLoop now ([d0, d1, d2].enum) ["a", "r", "s"] ⟨[], [], [], false⟩ =
        .done ⟨[approvedEntry now (draftSignature d0 j0) (draftSummary j0) (draftService j0),
          rejectedEntry now (draftSignature d1 j1) (draftSummary j1) (draftService j1)
            j1.cluster_label], [0], [1], true⟩ [] := by
      show reviewLoop now [(0, d0), (1, d1), (2, d2)] ["a", "r", "s"] ⟨[], [], [], false⟩ = _
      rw [reviewLoop, h0]
      show reviewLoop now [(1, d1), (2, d2)] ["r", "s"] _ = _
      rw [reviewLoop, h1]
      show reviewLoop now [(2, d2)] ["s"] _ = _
      rw [reviewLoop, h2]
      rfl
    rw [hloop]
    rfl
  · intro drafts script res hres
    unfold review_and_submit_jira_drafts at hres
    by_cases hempty : drafts.isEmpty
    · rw [if_pos hempty] at hres
      cases hres
      exact ⟨fun h => by simp at h, rfl, Or.inl rfl⟩
    · rw [if_neg hempty] at hres
      cases hloop : reviewLoop now drafts.enum script ⟨[], [], [], false⟩ with
      | raised m => rw [hloop] at hres; cases hres
      | blocked => rw [hloop] at hres; cases hres
      | done st rest =>
        rw [hloop] at hres
        by_cases hsub : ¬ st.skippedAll ∧ st.approved ≠ []
        · simp only [if_pos hsub] at hres
          cases hres
          refine ⟨fun h => absurd h (by simpa using hsub.1), rfl, Or.inr (by simp)⟩
        · simp only [if_neg hsub] at hres
          cases hres
          exact ⟨fun _ => rfl, rfl, Or.inl rfl⟩

/-- Witness for C5: the scenario theorem applied to three concrete drafts. -/
theorem review_approve_reject_skip_witness :
    review_and_submit_jira_drafts "t0"
      [⟨some ⟨some "s0", some "svc", some "jsig0", none, some "internal_error"⟩, some "sig0"⟩,
       ⟨some ⟨some "s1", some "svc", some "jsig1", none, some "noise"⟩, some "sig1"⟩,
       ⟨some ⟨some "s2", some "svc", some "jsig2", none, some "noise"⟩, some "sig2"⟩]
      ["a", "r", "s"] =
      .ok (some (⟨1, 1, 0, true⟩,
        [approvedEntry "t0" (some "sig0") "s0" "svc",
         rejectedEntry "t0" (some "sig1") "s1" "svc" (some "noise")],
        [])) := by
  have h := (review_approve_reject_skip "t0"
    ⟨some ⟨some "s0", some "svc", some "jsig0", none, some "internal_error"⟩, some "sig0"⟩
    ⟨some ⟨some "s1", some "svc", some "jsig1", none, some "noise"⟩, some "sig1"⟩
    ⟨some ⟨some "s2", some "svc", some "jsig2", none, some "noise"⟩, some "sig2"⟩
    ⟨some "s0", some "svc", some "jsig0", none, some "internal_error"⟩
    ⟨some "s1", some "svc", some "jsig1", none, some "noise"⟩
    ⟨some "s2", some "svc", some "jsig2", none, some "noise"⟩
    rfl rfl rfl).1
  exact h

end Aloe
